import Mathlib

/-!
Verification of the pycoin transaction-authorization core (script tools,
signature codec, single-sig and multisig check opcodes, multisig solver)
against its natural-language specification.

The Python sources are shallowly embedded: byte strings become `List Nat`
(each element a byte value), Python exceptions become an explicit `PyExc`
error type threaded through `Except`, and the mutable evaluation stack
becomes a `List (List Nat)` whose head is the top of the stack
(Python's `stack.pop()` removes the last element, i.e. the top; we keep
the top at the head so `pop` is `head`/`tail` and `append` is `cons`).
External collaborators (DER integer decoding, SEC point decoding, ECDSA
verify / candidate-key recovery, digest computation, key lookup) are
passed in as function parameters, mirroring the capability interfaces of
the spec.
-/

namespace Pycoin

/-- Python exception classes that appear in the embedded code, kept as
distinct constructors so that `try/except` clauses catching a specific
tuple of classes can be modelled exactly.  `scriptError` is
`pycoin.tx.script.ScriptError` (its defining module is not under `src/`;
per the spec's error-handling design it is a plain `Exception` subclass,
distinct from the classes caught inside `op_checksig`). -/
inductive PyExc where
  | scriptError (msg : String)
  | unexpectedDER
  | encodingError
  | valueError
  | typeError
  | indexError
  | binasciiError
  | noSuchPoint
  | solvingError (msg : String)
  | unboundLocalError (name : String)
  deriving DecidableEq, Repr

instance exceptDecEq {ε α : Type} [DecidableEq ε] [DecidableEq α] : DecidableEq (Except ε α) := by
  intro a b
  cases a <;> cases b
  case error.error e f =>
    exact if h : e = f then .isTrue (by rw [h]) else .isFalse (by intro hc; cases hc; exact h rfl)
  case error.ok _ _ => exact .isFalse (by intro hc; cases hc)
  case ok.error _ _ => exact .isFalse (by intro hc; cases hc)
  case ok.ok a b =>
    exact if h : a = b then .isTrue (by rw [h]) else .isFalse (by intro hc; cases hc; exact h rfl)

/-! ### Verification flag bits and hash types

Modelled from the spec: the flag constants live in
`pycoin/tx/script/flags.py`, which is not under `src/`.  The spec (§3, §6)
fixes only that they are independently togglable bits of an immutable
bitmask, so we assign them distinct bits.  The hash-type values are given
explicitly by the spec (§6): ALL=1, NONE=2, SINGLE=3, ANYONECANPAY=0x80. -/

def VERIFY_STRICTENC : Nat := 1
def VERIFY_DERSIG : Nat := 2
def VERIFY_LOW_S : Nat := 4
def VERIFY_NULLDUMMY : Nat := 8
def VERIFY_MINIMALDATA : Nat := 16

def SIGHASH_ALL : Nat := 1
def SIGHASH_NONE : Nat := 2
def SIGHASH_SINGLE : Nat := 3
def SIGHASH_ANYONECANPAY : Nat := 0x80

/-- Modelled from the spec: `VCH_TRUE`/`VCH_FALSE` come from
`pycoin/tx/script/microcode.py`, not under `src/`.  The spec only says the
opcode handlers push "true"/"false" stack values; we model them as the
canonical distinct byte strings. -/
def VCH_TRUE : List Nat := [1]

/-- Modelled from the spec: the "false" stack value (see `VCH_TRUE`). -/
def VCH_FALSE : List Nat := []

/-! ### Byte-string helpers (pycoin.intbytes / struct, not under src/)

`pycoin/intbytes.py` is a Python-2/3 compatibility shim, not under `src/`.
Modelled from the spec's binary-encoding section (§6): `from_bytes` is
little-endian (`int.from_bytes(..., "little")`), `int_to_bytes` is the
minimal big-endian encoding of a non-negative integer (in
`write_push_data` it is only ever applied to lengths 1..255, a single
byte), and `struct.pack("<H"/"<L")` is the fixed-width little-endian
encoding. -/

/-- `int.from_bytes(bs, byteorder="little")`. -/
def from_bytes_le (bs : List Nat) : Nat :=
  bs.foldr (fun b acc => b + 256 * acc) 0

/-- `struct.pack`-style fixed-width little-endian encoding: `w` bytes. -/
def to_bytes_le : Nat → Nat → List Nat
  | 0, _ => []
  | w + 1, v => v % 256 :: to_bytes_le w (v / 256)

/-- Minimal big-endian bytes of `v` (fuelled so that the kernel can
evaluate it; 64 bytes of fuel covers every value below `2 ^ 512`, far
beyond any script length). -/
def min_be_bytes : Nat → Nat → List Nat
  | 0, _ => []
  | fuel + 1, v => if v < 256 then [v] else min_be_bytes fuel (v / 256) ++ [v % 256]

/-- `pycoin.intbytes.int_to_bytes`. -/
def int_to_bytes (v : Nat) : List Nat := min_be_bytes 64 v

/-- Python slice `s[a:b]` for `0 ≤ a ≤ b` (clamped at the end of the
list, never failing). -/
def pySlice (s : List Nat) (a b : Nat) : List Nat :=
  (s.drop a).take (b - a)

/-! ### The opcode/mnemonic table

Modelled from the spec: `pycoin/tx/script/opcodes.py` is not under
`src/`.  The spec (§6) fixes the opcode space bit-exactly: `0x00` pushes
empty (`OP_0`), `0x4c/0x4d/0x4e` are `OP_PUSHDATA1/2/4`, `0x51`–`0x60`
are `OP_1`–`OP_16`, `0xac` is `OP_CHECKSIG` and `0xae` is
`OP_CHECKMULTISIG`; the standard pay-to-address template (§8) additionally
uses `OP_DUP` (0x76), `OP_EQUALVERIFY` (0x88) and `OP_HASH160` (0xa9) of
the same consensus opcode space. -/
def OPCODE_TABLE : List (List Char × Nat) :=
  [("OP_0".data, 0x00),
   ("OP_PUSHDATA1".data, 0x4c),
   ("OP_PUSHDATA2".data, 0x4d),
   ("OP_PUSHDATA4".data, 0x4e),
   ("OP_1".data, 0x51), ("OP_2".data, 0x52), ("OP_3".data, 0x53),
   ("OP_4".data, 0x54), ("OP_5".data, 0x55), ("OP_6".data, 0x56),
   ("OP_7".data, 0x57), ("OP_8".data, 0x58), ("OP_9".data, 0x59),
   ("OP_10".data, 0x5a), ("OP_11".data, 0x5b), ("OP_12".data, 0x5c),
   ("OP_13".data, 0x5d), ("OP_14".data, 0x5e), ("OP_15".data, 0x5f),
   ("OP_16".data, 0x60),
   ("OP_DUP".data, 0x76),
   ("OP_EQUALVERIFY".data, 0x88),
   ("OP_HASH160".data, 0xa9),
   ("OP_CHECKSIG".data, 0xac),
   ("OP_CHECKMULTISIG".data, 0xae)]

/-- Dictionary lookup `OPCODE_TO_INT.get(name)`. -/
def OPCODE_TO_INT (k : List Char) : Option Nat :=
  (OPCODE_TABLE.find? (fun p => p.1 = k)).map (·.2)

/-- Dictionary lookup `INT_TO_OPCODE.get(v)`. -/
def INT_TO_OPCODE (v : Nat) : Option (List Char) :=
  (OPCODE_TABLE.find? (fun p => p.2 = v)).map (·.1)

def OP_PUSHDATA1 : Nat := 0x4c
def OP_PUSHDATA2 : Nat := 0x4d
def OP_PUSHDATA4 : Nat := 0x4e

/-- `OPCODE_TO_INT["OP_%d" % v]` for `0 ≤ v ≤ 16` (used by
`write_push_data`). -/
def op_int (v : Nat) : Nat := if v = 0 then 0x00 else 0x50 + v

/-! ### tools.py -/

/-- `tools.get_opcode(script, pc)`: one decode step.  Returns
`(opcode, data?, new_pc)`.  `ord` of an empty slice raises `TypeError`;
running past the declared data length raises `ScriptError`. -/
def get_opcode (script : List Nat) (pc : Nat) :
    Except PyExc (Nat × Option (List Nat) × Nat) :=
  match (script.drop pc).head? with
  | none => .error .typeError
  | some opcode =>
    let pc1 := pc + 1
    if opcode ≤ OP_PUSHDATA4 then
      let sp : Nat × Nat :=
        if opcode < OP_PUSHDATA1 then (opcode, pc1)
        else if opcode = OP_PUSHDATA1 then (from_bytes_le (pySlice script pc1 (pc1 + 1)), pc1 + 1)
        else if opcode = OP_PUSHDATA2 then (from_bytes_le (pySlice script pc1 (pc1 + 2)), pc1 + 2)
        else (from_bytes_le (pySlice script pc1 (pc1 + 4)), pc1 + 4)
      let size := sp.1
      let pc2 := sp.2
      let data := pySlice script pc2 (pc2 + size)
      if data.length < size then
        .error (.scriptError "unexpected end of data when literal expected")
      else
        .ok (opcode, some data, pc2 + size)
    else
      .ok (opcode, none, pc1)

/-- The body of `write_push_data` for one blob `t` of the data list
(including the fall-through of a single byte greater than 16 into the
length-≤-255 branch). -/
def push_data_bytes (t : List Nat) : List Nat :=
  if t.length = 0 then [op_int 0]
  else if t.length = 1 ∧ t.headD 0 ≤ 16 then [op_int (t.headD 0)]
  else if t.length ≤ 255 then
    (if t.length > 75 then [OP_PUSHDATA1] else []) ++ int_to_bytes t.length ++ t
  else if t.length ≤ 65535 then
    OP_PUSHDATA2 :: to_bytes_le 2 t.length ++ t
  else
    OP_PUSHDATA4 :: to_bytes_le 4 t.length ++ t

/-- `tools.write_push_data(data_list, f)`: the bytes written to `f`. -/
def write_push_data (dataList : List (List Nat)) : List Nat :=
  (dataList.map push_data_bytes).flatten

/-- `tools.bin_script(data_list)`. -/
def bin_script (dataList : List (List Nat)) : List Nat :=
  write_push_data dataList

/-- `binascii.hexlify`, lower-case, two digits per byte. -/
def hex_digit (n : Nat) : Char :=
  if n < 10 then Char.ofNat (48 + n) else Char.ofNat (87 + n)

def hexlify (bs : List Nat) : List Char :=
  bs.map (fun b => [hex_digit (b / 16), hex_digit (b % 16)]) |>.flatten

/-- Value of one hex digit, or `none` when the character is not a hex
digit (`binascii` accepts both cases). -/
def hex_val (c : Char) : Option Nat :=
  if 48 ≤ c.toNat ∧ c.toNat ≤ 57 then some (c.toNat - 48)
  else if 97 ≤ c.toNat ∧ c.toNat ≤ 102 then some (c.toNat - 87)
  else if 65 ≤ c.toNat ∧ c.toNat ≤ 70 then some (c.toNat - 55)
  else none

/-- `binascii.unhexlify`: fails on odd length or a non-hex character. -/
def unhexlify : List Char → Except PyExc (List Nat)
  | [] => .ok []
  | [_] => .error .binasciiError
  | a :: b :: rest =>
    match hex_val a, hex_val b with
    | some x, some y => (unhexlify rest).map (fun tl => (16 * x + y) :: tl)
    | _, _ => .error .binasciiError

/-- `tools.disassemble_for_opcode_data(opcode, data)`. -/
def disassemble_for_opcode_data (opcode : Nat) (data : Option (List Nat)) : List Char :=
  match data with
  | some d =>
    if d.length > 0 then (Char.ofNat 91 :: hexlify d) ++ [Char.ofNat 93]
    else ((INT_TO_OPCODE opcode).getD "???".data)
  | none => ((INT_TO_OPCODE opcode).getD "???".data)

/-- The `while pc < len(script)` loop of `tools.opcode_list`, fuelled for
kernel evaluation.  Each iteration strictly increases `pc`, so
`script.length` units of fuel always suffice (see
`opcode_list_fuel_sufficient`); the fuel-exhausted error is unreachable
from `opcode_list`. -/
def opcode_list_fuel : Nat → List Nat → Nat → Except PyExc (List (List Char))
  | 0, script, pc =>
    if pc < script.length then .error (.scriptError "fuel exhausted") else .ok []
  | fuel + 1, script, pc =>
    if pc < script.length then
      match get_opcode script pc with
      | .error e => .error e
      | .ok (opcode, data, pc2) =>
        (opcode_list_fuel fuel script pc2).map (disassemble_for_opcode_data opcode data :: ·)
    else .ok []

/-- `tools.opcode_list(script)`. -/
def opcode_list (script : List Nat) : Except PyExc (List (List Char)) :=
  opcode_list_fuel script.length script 0

/-- `' '.join(...)`. -/
def join_spaces (tokens : List (List Char)) : List Char :=
  (List.intersperse [' '] tokens).flatten

/-- `tools.disassemble(script)`. -/
def disassemble (script : List Nat) : Except PyExc (List Char) :=
  (opcode_list script).map join_spaces

/-- Python `str.split()` with no argument: split on runs of whitespace,
dropping empty pieces (auxiliary accumulator form). -/
def splitWSAux : List Char → List Char → List (List Char)
  | [], acc => if acc = [] then [] else [acc.reverse]
  | c :: rest, acc =>
    if c.isWhitespace then
      if acc = [] then splitWSAux rest []
      else acc.reverse :: splitWSAux rest []
    else splitWSAux rest (c :: acc)

def splitWS (cs : List Char) : List (List Char) := splitWSAux cs []

/-- Compilation of a single whitespace-delimited token of script text
(the loop body of `tools.compile`).  Token order follows the source:
mnemonic table, `OP_`-prefixed mnemonic, raw `0x...` hex, then a data
blob (brackets stripped, quoted UTF-8 literal or hex) emitted through
`write_push_data`. -/
def compile_token (t : List Char) : Except PyExc (List Nat) :=
  match OPCODE_TO_INT t with
  | some v => .ok [v]
  | none =>
    match OPCODE_TO_INT ("OP_".data ++ t) with
    | some v => .ok [v]
    | none =>
      if t.take 2 = ['0', 'x'] then
        unhexlify (t.drop 2)
      else
        match t.head?, t.getLast? with
        | none, _ => .error .indexError
        | _, none => .error .indexError
        | some c0, some cn =>
          let t1 := if c0 = Char.ofNat 91 ∧ cn = Char.ofNat 93 then (t.drop 1).dropLast else t
          if t1.head? = some (Char.ofNat 39) ∧ t1.getLast? = some (Char.ofNat 39) ∧ 2 ≤ t1.length then
            .ok (write_push_data [((String.mk ((t1.drop 1).dropLast)).toUTF8.toList.map (·.toNat))])
          else
            (unhexlify t1).map (fun v => write_push_data [v])

/-- `tools.compile(s)`. -/
def pyCompile (s : List Char) : Except PyExc (List Nat) := do
  let parts ← (splitWS s).mapM compile_token
  pure parts.flatten

/-- The `while pc < len(script)` loop of `tools.delete_subscript`,
fuelled exactly like `opcode_list_fuel`. -/
def delete_subscript_fuel : Nat → List Nat → List Nat → Nat → Except PyExc (List Nat)
  | 0, script, _, pc =>
    if pc < script.length then .error (.scriptError "fuel exhausted") else .ok []
  | fuel + 1, script, subscript, pc =>
    if pc < script.length then
      match get_opcode script pc with
      | .error e => .error e
      | .ok (_, _, pc2) =>
        let section_ := pySlice script pc pc2
        (delete_subscript_fuel fuel script subscript pc2).map
          (fun tail => if section_ ≠ subscript then section_ ++ tail else tail)
    else .ok []

/-- `tools.delete_subscript(script, subscript)`. -/
def delete_subscript (script subscript : List Nat) : Except PyExc (List Nat) :=
  delete_subscript_fuel script.length script subscript 0

/-! ### check_signature.py: the signature codec -/

/-- Modelled from the spec: the secp256k1 domain parameters live in
`pycoin/ecdsa/secp256k1.py`, which is not under `src/`.  Under the SEC
secp256k1 standard that the spec names (§1, §8), `_p` is the prime of the
base field, `2^256 - 2^32 - 977`. -/
def secp256k1_p : Nat :=
  0xfffffffffffffffffffffffffffffffffffffffffffffffffffffffefffffc2f

/-- Modelled from the spec: "the secp256k1 order `n`" (§8) — the order of
the secp256k1 group (named `_r` in `pycoin/ecdsa/secp256k1.py`, not under
`src/`). -/
def secp256k1_order : Nat :=
  0xfffffffffffffffffffffffffffffffebaaedce6af48a03bbfd25e8cd0364141

/-- `check_signature.check_valid_signature(sig)`: the strict DER layout
check ported from bitcoind `IsValidSignatureEncoding`.  Each list index
is only reached after earlier guards put it in bounds, so the `getD`
defaults are never consulted. -/
def check_valid_signature (sig : List Nat) : Except PyExc Unit :=
  let ls := sig.length
  if ls < 9 ∨ ls > 73 then .error (.scriptError "bad signature size")
  else if sig.getD 0 0 ≠ 0x30 then .error (.scriptError "bad signature byte 0")
  else if sig.getD 1 0 ≠ ls - 3 then .error (.scriptError "signature size wrong")
  else
    let r_len := sig.getD 3 0
    if 5 + r_len ≥ ls then .error (.scriptError "r length exceed signature size")
    else
      let s_len := sig.getD (5 + r_len) 0
      if r_len + s_len + 7 ≠ ls then .error (.scriptError "r and s size exceed signature size")
      else if sig.getD 2 0 ≠ 2 then .error (.scriptError "R value region does not start with 0x02")
      else if r_len = 0 then .error (.scriptError "zero-length R value")
      else if sig.getD 4 0 &&& 0x80 ≠ 0 then .error (.scriptError "sig R value not allowed to be negative")
      else if r_len > 1 ∧ sig.getD 4 0 = 0 ∧ sig.getD 5 0 &&& 0x80 = 0 then
        .error (.scriptError "sig R value not allowed to have leading 0 byte unless doing so would make it negative")
      else if sig.getD (r_len + 4) 0 ≠ 2 then .error (.scriptError "S value region does not start with 0x02")
      else if s_len = 0 then .error (.scriptError "zero-length S value")
      else if sig.getD (r_len + 6) 0 &&& 0x80 ≠ 0 then .error (.scriptError "negative S values not allowed")
      else if s_len > 1 ∧ sig.getD (r_len + 6) 0 = 0 ∧ sig.getD (r_len + 7) 0 &&& 0x80 = 0 then
        .error (.scriptError "sig S value not allowed to have leading 0 byte unless doing so would make it negative")
      else .ok ()

/-- `check_signature.check_low_der_signature(sig_pair)`.  The source
imports `_p` — the secp256k1 FIELD PRIME — from `pycoin.ecdsa.secp256k1`
and raises when `_p - s < s`.  (Python integers are unbounded and signed,
hence the computation over `Int`.) -/
def check_low_der_signature (sig_pair : Int × Int) : Except PyExc Unit :=
  let s := sig_pair.2
  let hi_s : Int := (secp256k1_p : Int) - s
  if hi_s < s then .error (.scriptError "signature has high S value") else .ok ()

/-- Python `x & ~0x80` for a non-negative `x`: clear bit 7 only. -/
def mask_not_anyonecanpay (b : Nat) : Nat :=
  if b.testBit 7 then b - 0x80 else b

/-- `check_signature.check_defined_hashtype_signature(sig)`. -/
def check_defined_hashtype_signature (sig : List Nat) : Except PyExc Unit :=
  if sig.length = 0 then .error (.scriptError "signature is length 0")
  else
    let hash_type := mask_not_anyonecanpay (sig.getLastD 0)
    if hash_type < SIGHASH_ALL ∨ hash_type > SIGHASH_SINGLE then
      .error (.scriptError "bad hash type after signature")
    else .ok ()

/-- `check_signature.parse_signature_blob(sig_blob, flags)`.
`sigdecode` is `der.sigdecode_der(..., use_broken_open_ssl_mechanism=True)`
(`der.py` is an external collaborator), which raises `UnexpectedDER` on a
blob it cannot parse. -/
def parse_signature_blob (sig_blob : List Nat) (flags : Nat)
    (sigdecode : List Nat → Except PyExc (Int × Int)) :
    Except PyExc ((Int × Int) × Nat) :=
  if sig_blob.length = 0 then .ok ((0, 0), 0)
  else do
    if flags &&& (VERIFY_DERSIG ||| VERIFY_LOW_S ||| VERIFY_STRICTENC) ≠ 0 then
      check_valid_signature sig_blob
    if flags &&& VERIFY_STRICTENC ≠ 0 then
      check_defined_hashtype_signature sig_blob
    let sig_pair ← sigdecode sig_blob.dropLast
    let signature_type := sig_blob.getLastD 0
    if flags &&& VERIFY_LOW_S ≠ 0 then
      check_low_der_signature sig_pair
    pure (sig_pair, signature_type)

/-- `check_signature.check_public_key_encoding(blob)`. -/
def check_public_key_encoding (blob : List Nat) : Except PyExc Unit :=
  let lb := blob.length
  if lb ≥ 33 then
    let fb := blob.headD 0
    if fb = 4 then
      if lb = 65 then .ok () else .error (.scriptError "invalid public key blob")
    else if fb = 2 ∨ fb = 3 then
      if lb = 33 then .ok () else .error (.scriptError "invalid public key blob")
    else .error (.scriptError "invalid public key blob")
  else .error (.scriptError "invalid public key blob")

/-- The exception classes caught by the `try/except` in `op_checksig`:
`(der.UnexpectedDER, ValueError, EncodingError)`. -/
def isCaught : PyExc → Bool
  | .unexpectedDER => true
  | .valueError => true
  | .encodingError => true
  | _ => false

/-- `check_signature.op_checksig(stack, ...)`: returns the stack after the
opcode.  Collaborator parameters: `sigdecode` (DER pair decoding),
`sec_to_public_pair` (SEC point decoding, strictness flag threaded),
`verify` (`ecdsa.verify`), `signature_for_hash_type_f` (the digest
provider).  Popping an empty Python list raises `IndexError`, which is not
among the caught classes. -/
def op_checksig (stack : List (List Nat))
    (signature_for_hash_type_f : Nat → List Nat → List Nat)
    (expected_hash_type : Option Nat) (tmp_script : List Nat) (flags : Nat)
    (sigdecode : List Nat → Except PyExc (Int × Int))
    (sec_to_public_pair : List Nat → Bool → Except PyExc (Nat × Nat))
    (verify : (Nat × Nat) → List Nat → (Int × Int) → Bool) :
    Except PyExc (List (List Nat)) :=
  match stack with
  | [] => .error .indexError
  | [_] => .error .indexError
  | pair_blob :: sig_blob :: rest =>
    let verify_strict : Bool := flags &&& VERIFY_STRICTENC ≠ 0
    let attempt : Except PyExc ((Int × Int) × Nat × (Nat × Nat)) := do
      if verify_strict then check_public_key_encoding pair_blob
      let ps ← parse_signature_blob sig_blob flags sigdecode
      let public_pair ← sec_to_public_pair pair_blob verify_strict
      pure (ps.1, ps.2, public_pair)
    match attempt with
    | .error e => if isCaught e then .ok (VCH_FALSE :: rest) else .error e
    | .ok (sig_pair, signature_type, public_pair) =>
      if expected_hash_type ≠ none ∧ expected_hash_type ≠ some signature_type then
        .error (.scriptError "wrong hash type")
      else
        match delete_subscript tmp_script (bin_script [sig_blob]) with
        | .error e => .error e
        | .ok tmp =>
          let signature_hash := signature_for_hash_type_f signature_type tmp
          .ok ((if verify public_pair signature_hash sig_pair then VCH_TRUE else VCH_FALSE) :: rest)

/-! ### check_signature.py: the multisig matcher and opcode -/

/-- The `try: pp = sec_to_public_pair(...) except EncodingError: pp = None`
of the key scan: only `EncodingError` is caught, leaving `pp = None`. -/
def catch_encoding_error (x : Except PyExc (Nat × Nat)) : Except PyExc (Option (Nat × Nat)) :=
  match x with
  | .error e => if e = .encodingError then .ok none else .error e
  | .ok p => .ok (some p)

/-- The `try: ppp = possible_public_pairs_for_signature(...)
except NoSuchPointError: ppp = []` of the matcher loop: only
`NoSuchPointError` is caught, leaving an empty candidate list. -/
def catch_no_such_point (x : Except PyExc (List (Nat × Nat))) :
    Except PyExc (List (Nat × Nat)) :=
  match x with
  | .error e => if e = .noSuchPoint then .ok [] else .error e
  | .ok l => .ok l

/-- The inner `for idx, ppb in enumerate(public_pair_blobs)` scan of
`sig_blob_matches`: skip an index already recorded, under strict encoding
check the key blob (a `ScriptError` here propagates), decode the SEC
blob catching only `EncodingError` (a failed decode is `pp = None`, which
is never a member of `ppp`), and accept the first index whose decoded
pair is in the candidate set.  `.ok none` is the `for ... else` fall
through. -/
def scan_public_pair_blobs (strict_encoding : Bool)
    (sec_to_public_pair : List Nat → Bool → Except PyExc (Nat × Nat))
    (ppp : List (Nat × Nat)) (sig_blob_indices : List Int) :
    List (List Nat) → Nat → Except PyExc (Option Nat)
  | [], _ => .ok none
  | ppb :: rest, idx =>
    if (Int.ofNat idx) ∈ sig_blob_indices then
      scan_public_pair_blobs strict_encoding sec_to_public_pair ppp sig_blob_indices rest (idx + 1)
    else
      (if strict_encoding then check_public_key_encoding ppb else .ok ()) >>= fun _ =>
      catch_encoding_error (sec_to_public_pair ppb strict_encoding) >>= fun pp =>
      match pp with
      | some p =>
        if p ∈ ppp then .ok (some idx)
        else scan_public_pair_blobs strict_encoding sec_to_public_pair ppp sig_blob_indices
          rest (idx + 1)
      | none =>
        scan_public_pair_blobs strict_encoding sec_to_public_pair ppp sig_blob_indices
          rest (idx + 1)

/-- The main `for sig_blob in sig_blobs` loop of `sig_blob_matches`,
carrying the digest cache (`sig_cache`, an association list keyed by
signature type) and the accumulated `sig_blob_indices`.  `tmp_script`
has already had the signature blobs deleted.  `possible_fn` is
`ecdsa.possible_public_pairs_for_signature`; only its `NoSuchPointError`
is caught (yielding an empty candidate list). -/
def sig_blob_matches_loop (public_pair_blobs : List (List Nat)) (tmp_script : List Nat)
    (signature_for_hash_type_f : Nat → List Nat → List Nat) (flags : Nat)
    (sigdecode : List Nat → Except PyExc (Int × Int))
    (possible_fn : List Nat → (Int × Int) → Except PyExc (List (Nat × Nat)))
    (sec_to_public_pair : List Nat → Bool → Except PyExc (Nat × Nat))
    (exit_early : Bool) :
    List (List Nat) → List (Nat × List Nat) → List Int → Except PyExc (List Int)
  | [], _, sig_blob_indices => .ok sig_blob_indices
  | sig_blob :: rest, sig_cache, sig_blob_indices =>
    let strict_encoding : Bool := flags &&& VERIFY_STRICTENC ≠ 0
    match parse_signature_blob sig_blob flags sigdecode with
    | .error e =>
      if e = .unexpectedDER then
        let acc := sig_blob_indices ++ [-1]
        if exit_early then .ok acc
        else sig_blob_matches_loop public_pair_blobs tmp_script signature_for_hash_type_f flags
          sigdecode possible_fn sec_to_public_pair exit_early rest sig_cache acc
      else .error e
    | .ok pr =>
      let signature_type := pr.2
      let cache' :=
        if (sig_cache.lookup signature_type).isSome then sig_cache
        else sig_cache ++ [(signature_type, signature_for_hash_type_f signature_type tmp_script)]
      let digest := ((cache'.lookup signature_type).getD [])
      catch_no_such_point (possible_fn digest pr.1) >>= fun ppp =>
      if ppp.length > 0 then
        scan_public_pair_blobs strict_encoding sec_to_public_pair ppp sig_blob_indices
            public_pair_blobs 0 >>= fun oidx =>
        match oidx with
        | some idx =>
          let acc := sig_blob_indices ++ [Int.ofNat idx]
          if acc.length > 1 ∧ exit_early ∧
              acc.getLastD 0 ≤ acc.getD (acc.length - 2) 0 then
            .ok acc
          else sig_blob_matches_loop public_pair_blobs tmp_script signature_for_hash_type_f
            flags sigdecode possible_fn sec_to_public_pair exit_early rest cache' acc
        | none =>
          let acc := sig_blob_indices ++ [-1]
          if exit_early then .ok acc
          else sig_blob_matches_loop public_pair_blobs tmp_script signature_for_hash_type_f
            flags sigdecode possible_fn sec_to_public_pair exit_early rest cache' acc
      else
        if exit_early then .ok sig_blob_indices
        else sig_blob_matches_loop public_pair_blobs tmp_script signature_for_hash_type_f flags
          sigdecode possible_fn sec_to_public_pair exit_early rest cache' sig_blob_indices

/-- `check_signature.sig_blob_matches(...)`: first deletes every
signature blob from `tmp_script`, then runs the matching loop. -/
def sig_blob_matches (sig_blobs public_pair_blobs : List (List Nat)) (tmp_script : List Nat)
    (signature_for_hash_type_f : Nat → List Nat → List Nat) (flags : Nat)
    (sigdecode : List Nat → Except PyExc (Int × Int))
    (possible_fn : List Nat → (Int × Int) → Except PyExc (List (Nat × Nat)))
    (sec_to_public_pair : List Nat → Bool → Except PyExc (Nat × Nat))
    (exit_early : Bool) : Except PyExc (List Int) :=
  match sig_blobs.foldlM (fun acc sb => delete_subscript acc (bin_script [sb])) tmp_script with
  | .error e => .error e
  | .ok tmp =>
    sig_blob_matches_loop public_pair_blobs tmp signature_for_hash_type_f flags
      sigdecode possible_fn sec_to_public_pair exit_early sig_blobs [] []

/-- Modelled from the spec: `int_from_script_bytes` is imported by
`check_signature.py` from `.tools` but is absent from the `src/` copy of
`tools.py`.  Per the spec (§3 "minimal numeric push encoding", §4.6 stack
counts) it decodes a script numeric operand: little-endian magnitude with
the top bit of the last byte as the sign, rejecting non-minimal encodings
when `require_minimal` is set. -/
def int_from_script_bytes (s : List Nat) (require_minimal : Bool) : Except PyExc Int :=
  match s.getLast? with
  | none => .ok 0
  | some last =>
    if require_minimal ∧ last &&& 0x7f = 0 ∧
        (s.length = 1 ∨ s.getD (s.length - 2) 0 &&& 0x80 = 0) then
      .error (.scriptError "non-minimally encoded script number")
    else
      let magnitude := from_bytes_le (s.dropLast ++ [mask_not_anyonecanpay last])
      .ok (if last.testBit 7 then -(magnitude : Int) else (magnitude : Int))

/-- The `for i in range(len(sig_blob_indices) - 1)` loop with `break`
and `else` in `op_checkmultisig`: `sig_ok` becomes true exactly when no
adjacent pair is non-increasing. -/
def strictly_increasing : List Int → Bool
  | [] => true
  | [_] => true
  | a :: b :: rest => decide (a < b) && strictly_increasing (b :: rest)

/-- `check_signature.op_checkmultisig(stack, ...)`: returns the stack
after the opcode together with `key_count` (the function's return value).
Stack head is the top; popping from an exhausted stack raises
`IndexError`. -/
def op_checkmultisig (stack : List (List Nat))
    (signature_for_hash_type_f : Nat → List Nat → List Nat)
    (tmp_script : List Nat) (flags : Nat)
    (sigdecode : List Nat → Except PyExc (Int × Int))
    (possible_fn : List Nat → (Int × Int) → Except PyExc (List (Nat × Nat)))
    (sec_to_public_pair : List Nat → Bool → Except PyExc (Nat × Nat)) :
    Except PyExc (List (List Nat) × Int) :=
  let require_minimal : Bool := flags &&& VERIFY_MINIMALDATA ≠ 0
  match stack with
  | [] => .error .indexError
  | kc_blob :: stack1 =>
    match int_from_script_bytes kc_blob require_minimal with
    | .error e => .error e
    | .ok key_count =>
      if key_count < 0 ∨ key_count > 20 then .error (.scriptError "key_count not in range 0 to 20")
      else if stack1.length < key_count.toNat then .error .indexError
      else
        let public_pair_blobs := stack1.take key_count.toNat
        match stack1.drop key_count.toNat with
        | [] => .error .indexError
        | sc_blob :: stack2 =>
          match int_from_script_bytes sc_blob require_minimal with
          | .error e => .error e
          | .ok signature_count =>
            if signature_count > key_count then .error (.scriptError "too many signatures")
            else if stack2.length < signature_count.toNat then .error .indexError
            else
              let sig_blobs := stack2.take signature_count.toNat
              let stack3 := stack2.drop signature_count.toNat
              match stack3 with
              | [] => .error .indexError
              | hack_byte :: stack4 =>
                if flags &&& VERIFY_NULLDUMMY ≠ 0 ∧ hack_byte ≠ [] then
                  .error (.scriptError "bad dummy byte in checkmultisig")
                else
                  match sig_blob_matches sig_blobs public_pair_blobs tmp_script
                      signature_for_hash_type_f flags sigdecode possible_fn
                      sec_to_public_pair true with
                  | .error e => .error e
                  | .ok sig_blob_indices =>
                    let sig_ok :=
                      if (-1 : Int) ∉ sig_blob_indices ∧
                          sig_blob_indices.length = sig_blobs.length ∧
                          strictly_increasing sig_blob_indices then VCH_TRUE
                      else VCH_FALSE
                    .ok (sig_ok :: stack4, key_count)

/-! ### ScriptMultisig.solve and TxOut.standard_tx_out_script -/

/-- Modelled from the spec: `ScriptType._dummy_signature` (in
`pycoin/tx/pay_to/ScriptType.py`, not under `src/`) is "a fixed
placeholder dummy signature (a single byte encoding the hash type)"
(§4.7). -/
def dummy_signature (signature_type : Nat) : List Nat := [signature_type]

/-- The `for sec_key in self.sec_keys` signing loop of
`ScriptMultisig.solve`: stop once `n` signatures are collected, skip keys
the lookup has no entry for, otherwise sign and append.
`hash160_fn` is `encoding.hash160`; `create_sig` is
`ScriptType._create_script_signature` (both external collaborators). -/
def multisig_sign_loop (n : Nat) (hash160_fn : List Nat → List Nat)
    (db : List Nat → Option (Nat × (Nat × Nat) × Bool))
    (create_sig : Nat → Nat → Nat → List Nat)
    (sign_value signature_type : Nat) :
    List (List Nat) → List (List Nat) → List (List Nat)
  | [], sigs => sigs
  | sec_key :: rest, sigs =>
    if sigs.length ≥ n then sigs
    else
      match db (hash160_fn sec_key) with
      | none => multisig_sign_loop n hash160_fn db create_sig sign_value signature_type rest sigs
      | some (secret_exponent, _, _) =>
        multisig_sign_loop n hash160_fn db create_sig sign_value signature_type rest
          (sigs ++ [create_sig secret_exponent sign_value signature_type])

/-- `ScriptMultisig.solve(...)` for an `n`-of-`len sec_keys` descriptor.
`hash160_lookup` is `none` when the capability is missing.  When a
non-empty `existing_script` is supplied, line 89 of the source reads the
local variable `script` before its (line 116) assignment, so Python
raises `UnboundLocalError` immediately; the embedding reproduces that. -/
def multisig_solve (sec_keys : List (List Nat)) (n : Nat)
    (hash160_lookup : Option (List Nat → Option (Nat × (Nat × Nat) × Bool)))
    (sign_value signature_type : Nat)
    (hash160_fn : List Nat → List Nat)
    (create_sig : Nat → Nat → Nat → List Nat)
    (existing_script : Option (List Nat)) : Except PyExc (List Nat) :=
  match hash160_lookup with
  | none => .error (.solvingError "missing hash160_lookup parameter")
  | some db =>
    if (existing_script.getD []) ≠ [] then .error (.unboundLocalError "script")
    else
      let existing_signatures :=
        multisig_sign_loop n hash160_fn db create_sig sign_value signature_type sec_keys []
      let padded :=
        existing_signatures ++
          List.replicate (n - existing_signatures.length) (dummy_signature signature_type)
      pyCompile (("OP_0 ").data ++ join_spaces (padded.map hexlify))

/-- `TxOut.standard_tx_out_script`, expressed as a function of the
already-decoded `hash160` (address decoding is an external collaborator):
compiles `"OP_DUP OP_HASH160 %s OP_EQUALVERIFY OP_CHECKSIG" % b2h(hash160)`. -/
def standard_tx_out_script (hash160 : List Nat) : Except PyExc (List Nat) :=
  pyCompile (("OP_DUP OP_HASH160 ").data ++ hexlify hash160 ++ (" OP_EQUALVERIFY OP_CHECKSIG").data)

/-- One round-trip unit of a script: either a minimal push of a data
blob (`bin_script [d]`) or a single known non-push opcode byte. -/
def unit_bytes : List Nat ⊕ Nat → List Nat
  | .inl d => bin_script [d]
  | .inr b => [b]

/-- Side conditions of the round-trip claim: push data is a byte string
(each byte below 256, length within `struct.pack("<L", ...)` range) and
a lone opcode is a non-push byte known to the mnemonic table. -/
def good_unit : List Nat ⊕ Nat → Prop
  | .inl d => (∀ x ∈ d, x < 256) ∧ d.length < 4294967296
  | .inr b => OP_PUSHDATA4 < b ∧ (INT_TO_OPCODE b).isSome ∧
      OPCODE_TO_INT ((INT_TO_OPCODE b).getD []) = some b

/-- The disassembly token produced for one unit. -/
def unit_token : List Nat ⊕ Nat → List Char
  | .inl d =>
    if d.length = 0 then ("OP_0").data
    else if d.length = 1 ∧ d.headD 0 ≤ 16 then
      (INT_TO_OPCODE (op_int (d.headD 0))).getD ("???").data
    else (Char.ofNat 91 :: hexlify d) ++ [Char.ofNat 93]
  | .inr b => (INT_TO_OPCODE b).getD ("???").data

instance good_unit_dec (u : List Nat ⊕ Nat) : Decidable (good_unit u) :=
  match u with
  | .inl d => (inferInstance :
      Decidable ((∀ x ∈ d, x < 256) ∧ d.length < 4294967296))
  | .inr b => (inferInstance :
      Decidable (OP_PUSHDATA4 < b ∧ (INT_TO_OPCODE b).isSome ∧
        OPCODE_TO_INT ((INT_TO_OPCODE b).getD []) = some b))

/-! ## Theorems -/

/-- The declared push size and data start position for the opcode at
`pc` (only meaningful when that opcode is ≤ `OP_PUSHDATA4`), mirroring
the size computation inside `get_opcode`: a 1-, 2- or 4-byte
little-endian prefix read from however many of those bytes remain. -/
def push_decl (script : List Nat) (pc : Nat) : Nat × Nat :=
  let opcode := (script.drop pc).headD 0
  let pc1 := pc + 1
  if opcode < OP_PUSHDATA1 then (opcode, pc1)
  else if opcode = OP_PUSHDATA1 then (from_bytes_le (pySlice script pc1 (pc1 + 1)), pc1 + 1)
  else if opcode = OP_PUSHDATA2 then (from_bytes_le (pySlice script pc1 (pc1 + 2)), pc1 + 2)
  else (from_bytes_le (pySlice script pc1 (pc1 + 4)), pc1 + 4)

/-- **C1.**  The low-S check of `check_low_der_signature` compares `s`
against `_p - s` where `_p` is the secp256k1 FIELD PRIME, not against
`curve_order - s` as the claim (and bitcoind's `IsLowDERSignature`,
which the source comment cites) requires.  At `s = (n + 1) / 2` (with
`n` the secp256k1 group order) we have `s > n - s`, so the claim demands
a high-S failure, yet the code accepts; the claim's two concrete
examples (`s = n - 1` fails, `s = 1` passes) do hold. -/
theorem claimC1_low_s_check_uses_field_prime :
    check_low_der_signature (1, ((secp256k1_order : Int) + 1) / 2) = .ok () ∧
    (secp256k1_order : Int) - ((secp256k1_order : Int) + 1) / 2 < ((secp256k1_order : Int) + 1) / 2 ∧
    check_low_der_signature (1, (secp256k1_order : Int) - 1) =
      .error (.scriptError "signature has high S value") ∧
    check_low_der_signature (1, 1) = .ok () := by
  refine ⟨rfl, by decide, rfl, rfl⟩

/-- **C5 counterexample.**  The claim says one decode step fails whenever
the 1-byte length prefix of `OP_PUSHDATA1` is itself truncated.  On the
one-byte script `[0x4c]` at cursor 0 the prefix is wholly missing, yet
`get_opcode` succeeds: `int.from_bytes` of the empty remaining slice
yields size 0 and the step returns an empty token (with the cursor even
moving past the end of the script). -/
theorem claimC5_truncated_pushdata1_read_succeeds :
    get_opcode [0x4c] 0 = .ok (0x4c, some [], 2) := rfl

/-- Length of a slice starting at `a` of requested length `k`. -/
lemma pySlice_length (s : List Nat) (a k : Nat) :
    (pySlice s a (a + k)).length = min k (s.length - a) := by
  simp [pySlice, Nat.add_sub_cancel_left, Nat.min_comm]

/-- A Python slice of a list is an infix of it. -/
lemma pySlice_isInfix (s : List Nat) (a b : Nat) : pySlice s a b <:+: s :=
  ((List.take_prefix _ _).isInfix).trans ((List.drop_suffix a s).isInfix)

/-- Characterization of `get_opcode` on a push-class opcode: the data is
the slice of declared size (`push_decl`) and the step fails exactly when
that slice comes up short. -/
lemma get_opcode_push_eq (script : List Nat) (pc : Nat) (op : Nat) (tl : List Nat)
    (hht : script.drop pc = op :: tl) (hop : op ≤ OP_PUSHDATA4) :
    get_opcode script pc =
      if (pySlice script (push_decl script pc).2
          ((push_decl script pc).2 + (push_decl script pc).1)).length < (push_decl script pc).1 then
        .error (.scriptError "unexpected end of data when literal expected")
      else .ok (op, some (pySlice script (push_decl script pc).2
          ((push_decl script pc).2 + (push_decl script pc).1)),
        (push_decl script pc).2 + (push_decl script pc).1) := by
  have hhd : (script.drop pc).headD 0 = op := by rw [hht]; rfl
  simp only [get_opcode, hht, List.head?, push_decl, hhd]
  rw [if_pos hop]
  rfl

/-- Characterization of `get_opcode` on a non-push opcode. -/
lemma get_opcode_nonpush_eq (script : List Nat) (pc : Nat) (op : Nat) (tl : List Nat)
    (hht : script.drop pc = op :: tl) (hop : OP_PUSHDATA4 < op) :
    get_opcode script pc = .ok (op, none, pc + 1) := by
  simp only [get_opcode, hht, List.head?]
  rw [if_neg (by omega)]

/-- A cursor strictly inside the script sees a head opcode. -/
lemma drop_cons_of_lt (script : List Nat) (pc : Nat) (h : pc < script.length) :
    ∃ op tl, script.drop pc = op :: tl := by
  cases hd : script.drop pc with
  | nil =>
    have := congrArg List.length hd
    simp at this
    omega
  | cons a b => exact ⟨a, b, rfl⟩

/-- **C5 (amended).**  One decode step at a cursor inside the script
either returns a token whose data is an in-bounds slice of the script of
exactly the declared length, or fails exactly when fewer data bytes
remain than the declared length — where the declared length of an
extended push is read little-endian from however many of its 1/2/4
prefix bytes remain (`push_decl`), a truncated prefix yielding the value
of the available bytes rather than an error. -/
theorem claimC5_get_opcode_amended (script : List Nat) (pc : Nat) (h : pc < script.length) :
    (OP_PUSHDATA4 < (script.drop pc).headD 0 →
      get_opcode script pc = .ok ((script.drop pc).headD 0, none, pc + 1)) ∧
    ((script.drop pc).headD 0 ≤ OP_PUSHDATA4 →
      (script.length < (push_decl script pc).2 + (push_decl script pc).1 ∧
          0 < (push_decl script pc).1 →
        get_opcode script pc = .error (.scriptError "unexpected end of data when literal expected")) ∧
      ((push_decl script pc).2 + (push_decl script pc).1 ≤ script.length ∨
          (push_decl script pc).1 = 0 →
        get_opcode script pc = .ok ((script.drop pc).headD 0,
          some (pySlice script (push_decl script pc).2
            ((push_decl script pc).2 + (push_decl script pc).1)),
          (push_decl script pc).2 + (push_decl script pc).1) ∧
        (pySlice script (push_decl script pc).2
          ((push_decl script pc).2 + (push_decl script pc).1)).length = (push_decl script pc).1 ∧
        pySlice script (push_decl script pc).2
          ((push_decl script pc).2 + (push_decl script pc).1) <:+: script)) := by
  obtain ⟨op, tl, hht⟩ := drop_cons_of_lt script pc h
  have hhd : (script.drop pc).headD 0 = op := by rw [hht]; rfl
  rw [hhd]
  constructor
  · intro hop
    exact get_opcode_nonpush_eq script pc op tl hht hop
  · intro hop
    have heq := get_opcode_push_eq script pc op tl hht hop
    constructor
    · rintro ⟨h1, h2⟩
      rw [heq, if_pos]
      rw [pySlice_length]
      omega
    · intro hok
      have hlen2 : (pySlice script (push_decl script pc).2
          ((push_decl script pc).2 + (push_decl script pc).1)).length =
          (push_decl script pc).1 := by
        rw [pySlice_length]
        omega
      refine ⟨?_, hlen2, pySlice_isInfix _ _ _⟩
      rw [heq, if_neg]
      omega

/-- **C7.**  `write_push_data` maps the single byte `0x00` to the
one-byte opcode `OP_0` (its `v <= 16` test includes 0), i.e.
`bin_script([b"\x00"]) = b"\x00"` — an opcode that pushes the EMPTY blob,
contradicting both the claim's rule (a single byte outside 1..16 gets the
two-byte literal-length encoding `01 00`) and the function's own stated
contract of pushing the given data.  The claim's positive example holds:
a single byte 5 encodes as the one-byte small-integer opcode `0x55`. -/
theorem claimC7_push_encoder_zero_byte_divergence :
    bin_script [[0x00]] = [0x00] ∧
    bin_script [[0x00]] ≠ [0x01, 0x00] ∧
    bin_script [[0x05]] = [0x55] ∧
    bin_script [[0x11]] = [0x01, 0x11] := by
  refine ⟨rfl, by decide, rfl, rfl⟩

/-- **C5 witness** for the amended decode-step theorem: the opcode `0x02`
at cursor 0 of the three-byte script `[0x02, 7, 8]` declares two data
bytes, both available, so the step returns them as an in-script slice. -/
theorem claimC5_get_opcode_amended_witness :
    get_opcode [0x02, 7, 8] 0 = .ok (([0x02, 7, 8].drop 0).headD 0,
      some (pySlice [0x02, 7, 8] (push_decl [0x02, 7, 8] 0).2
        ((push_decl [0x02, 7, 8] 0).2 + (push_decl [0x02, 7, 8] 0).1)),
      (push_decl [0x02, 7, 8] 0).2 + (push_decl [0x02, 7, 8] 0).1) :=
  (((claimC5_get_opcode_amended [0x02, 7, 8] 0 (by decide)).2 (by decide)).2 (by decide)).1

/-- **C9.**  Disassembling the standard pay-to-address script built for
hash160 `745e5b81fd30ca1e90311b012badabaa4411ae1a` renders the pushed
hash in square brackets (`disassemble_for_opcode_data` wraps every data
blob in `[...]`), so the output differs from the bracket-free text that
the claim — and the repository's own test
`build_tx_test.py::test_standard_tx_out` — expects. -/
theorem claimC9_standard_script_disassembly_has_brackets :
    standard_tx_out_script
        [0x74, 0x5e, 0x5b, 0x81, 0xfd, 0x30, 0xca, 0x1e, 0x90, 0x31,
         0x1b, 0x01, 0x2b, 0xad, 0xab, 0xaa, 0x44, 0x11, 0xae, 0x1a] =
      .ok ([0x76, 0xa9, 0x14] ++
        [0x74, 0x5e, 0x5b, 0x81, 0xfd, 0x30, 0xca, 0x1e, 0x90, 0x31,
         0x1b, 0x01, 0x2b, 0xad, 0xab, 0xaa, 0x44, 0x11, 0xae, 0x1a] ++ [0x88, 0xac]) ∧
    disassemble ([0x76, 0xa9, 0x14] ++
        [0x74, 0x5e, 0x5b, 0x81, 0xfd, 0x30, 0xca, 0x1e, 0x90, 0x31,
         0x1b, 0x01, 0x2b, 0xad, 0xab, 0xaa, 0x44, 0x11, 0xae, 0x1a] ++ [0x88, 0xac]) =
      .ok ("OP_DUP OP_HASH160 [745e5b81fd30ca1e90311b012badabaa4411ae1a] OP_EQUALVERIFY OP_CHECKSIG").data ∧
    ("OP_DUP OP_HASH160 [745e5b81fd30ca1e90311b012badabaa4411ae1a] OP_EQUALVERIFY OP_CHECKSIG").data ≠
      ("OP_DUP OP_HASH160 745e5b81fd30ca1e90311b012badabaa4411ae1a OP_EQUALVERIFY OP_CHECKSIG").data := by
  refine ⟨rfl, rfl, by decide⟩

/-- **C6.**  The DER layout validator accepts only blobs satisfying the
claim's grammar: total length within 9..73, SEQUENCE tag `0x30`,
declared length = total − 3, INTEGER tags `0x02` for the r and s
regions, r and s non-empty, high bit of their first byte clear, and no
superfluous leading zero byte.  Every 8-byte blob is rejected with the
size error, and the claim's minimal well-formed 9-byte blob
(`r = 0x01`, `s = 0x01`) is accepted. -/
theorem claimC6_der_layout_validator (sig : List Nat) :
    (check_valid_signature sig = .ok () →
      9 ≤ sig.length ∧ sig.length ≤ 73 ∧
      sig.getD 0 0 = 0x30 ∧
      sig.getD 1 0 = sig.length - 3 ∧
      sig.getD 2 0 = 2 ∧
      sig.getD (sig.getD 3 0 + 4) 0 = 2 ∧
      sig.getD 3 0 ≠ 0 ∧
      sig.getD (5 + sig.getD 3 0) 0 ≠ 0 ∧
      sig.getD 4 0 &&& 0x80 = 0 ∧
      sig.getD (sig.getD 3 0 + 6) 0 &&& 0x80 = 0 ∧
      ¬(sig.getD 3 0 > 1 ∧ sig.getD 4 0 = 0 ∧ sig.getD 5 0 &&& 0x80 = 0) ∧
      ¬(sig.getD (5 + sig.getD 3 0) 0 > 1 ∧ sig.getD (sig.getD 3 0 + 6) 0 = 0 ∧
        sig.getD (sig.getD 3 0 + 7) 0 &&& 0x80 = 0)) ∧
    (sig.length = 8 → check_valid_signature sig = .error (.scriptError "bad signature size")) ∧
    check_valid_signature [0x30, 0x06, 0x02, 0x01, 0x01, 0x02, 0x01, 0x01, 0x01] = .ok () := by
  refine ⟨?_, ?_, rfl⟩
  · intro h
    simp only [check_valid_signature] at h
    by_cases hc1 : sig.length < 9 ∨ sig.length > 73
    · rw [if_pos hc1] at h
      exact Except.noConfusion h
    · rw [if_neg hc1] at h
      by_cases hc2 : sig.getD 0 0 ≠ 0x30
      · rw [if_pos hc2] at h
        exact Except.noConfusion h
      · rw [if_neg hc2] at h
        by_cases hc3 : sig.getD 1 0 ≠ sig.length - 3
        · rw [if_pos hc3] at h
          exact Except.noConfusion h
        · rw [if_neg hc3] at h
          by_cases hc4 : 5 + sig.getD 3 0 ≥ sig.length
          · rw [if_pos hc4] at h
            exact Except.noConfusion h
          · rw [if_neg hc4] at h
            by_cases hc5 : sig.getD 3 0 + sig.getD (5 + sig.getD 3 0) 0 + 7 ≠ sig.length
            · rw [if_pos hc5] at h
              exact Except.noConfusion h
            · rw [if_neg hc5] at h
              by_cases hc6 : sig.getD 2 0 ≠ 2
              · rw [if_pos hc6] at h
                exact Except.noConfusion h
              · rw [if_neg hc6] at h
                by_cases hc7 : sig.getD 3 0 = 0
                · rw [if_pos hc7] at h
                  exact Except.noConfusion h
                · rw [if_neg hc7] at h
                  by_cases hc8 : sig.getD 4 0 &&& 0x80 ≠ 0
                  · rw [if_pos hc8] at h
                    exact Except.noConfusion h
                  · rw [if_neg hc8] at h
                    by_cases hc9 : sig.getD 3 0 > 1 ∧ sig.getD 4 0 = 0 ∧
                        sig.getD 5 0 &&& 0x80 = 0
                    · rw [if_pos hc9] at h
                      exact Except.noConfusion h
                    · rw [if_neg hc9] at h
                      by_cases hc10 : sig.getD (sig.getD 3 0 + 4) 0 ≠ 2
                      · rw [if_pos hc10] at h
                        exact Except.noConfusion h
                      · rw [if_neg hc10] at h
                        by_cases hc11 : sig.getD (5 + sig.getD 3 0) 0 = 0
                        · rw [if_pos hc11] at h
                          exact Except.noConfusion h
                        · rw [if_neg hc11] at h
                          by_cases hc12 : sig.getD (sig.getD 3 0 + 6) 0 &&& 0x80 ≠ 0
                          · rw [if_pos hc12] at h
                            exact Except.noConfusion h
                          · rw [if_neg hc12] at h
                            by_cases hc13 : sig.getD (5 + sig.getD 3 0) 0 > 1 ∧
                                sig.getD (sig.getD 3 0 + 6) 0 = 0 ∧
                                sig.getD (sig.getD 3 0 + 7) 0 &&& 0x80 = 0
                            · rw [if_pos hc13] at h
                              exact Except.noConfusion h
                            · push_neg at hc1 hc2 hc3 hc6 hc8 hc10 hc12
                              exact ⟨by omega, by omega, hc2, hc3, hc6, hc10, hc7, hc11,
                                hc8, hc12, hc9, hc13⟩
  · intro hlen
    simp only [check_valid_signature, hlen]
    norm_num

/-- **C6 witness**: the 8-byte hypothesis discharged on an explicit
all-zero 8-byte blob. -/
theorem claimC6_der_layout_validator_witness :
    check_valid_signature [0, 0, 0, 0, 0, 0, 0, 0] = .error (.scriptError "bad signature size") :=
  (claimC6_der_layout_validator [0, 0, 0, 0, 0, 0, 0, 0]).2.1 (by decide)

/-- `Except` bind on an error short-circuits. -/
lemma pyBind_error {ε α β : Type} (e : ε) (f : α → Except ε β) :
    (Except.error e : Except ε α) >>= f = .error e := rfl

/-- `Except` bind on a success applies the continuation. -/
lemma pyBind_ok {ε α β : Type} (a : α) (f : α → Except ε β) :
    (Except.ok a : Except ε α) >>= f = f a := rfl

/-- `Except` bind after `pure`. -/
lemma pyBind_pure {ε α β : Type} (a : α) (f : α → Except ε β) :
    (pure a : Except ε α) >>= f = f a := rfl

/-- **C2 counterexample.**  With the DER-only flag set (and strict
encoding off, so the claim's public-key clause is vacuous), a signature
blob of 8 junk bytes is a DER-grammar decoding failure, yet
`op_checksig` aborts the evaluation with the (uncaught) `ScriptError`
from `check_valid_signature` instead of pushing "false" and continuing
as the claim requires of every signature decoding failure. -/
theorem claimC2_der_grammar_failure_aborts :
    op_checksig [[4], [0x30, 0, 0, 0, 0, 0, 0, 0]] (fun _ _ => []) none [] VERIFY_DERSIG
      (fun _ => .ok (0, 0)) (fun _ _ => .ok (0, 0)) (fun _ _ _ => true) =
      .error (.scriptError "bad signature size") := rfl

/-- **C2 (amended).**  In `op_checksig`, with the strict-encoding flag
set a mis-encoded public-key blob aborts the whole evaluation (its
`ScriptError` is not caught); a signature-processing failure is
recoverable — false pushed, no exception — exactly when it surfaces as
one of the caught exception classes (`der.UnexpectedDER`, `ValueError`,
`EncodingError`, i.e. the DER decoder proper or public-pair decoding);
the strict grammar/hash-type/low-S checks run by `parse_signature_blob`
under the DERSIG/LOW_S/STRICTENC flags raise `ScriptError`, which is
fatal, so not "every" signature decoding failure is recoverable. -/
theorem claimC2_op_checksig_error_severity (rest : List (List Nat))
    (pair_blob sig_blob : List Nat) (flags : Nat)
    (signature_for_hash_type_f : Nat → List Nat → List Nat)
    (expected_hash_type : Option Nat) (tmp_script : List Nat)
    (sigdecode : List Nat → Except PyExc (Int × Int))
    (sec_to_public_pair : List Nat → Bool → Except PyExc (Nat × Nat))
    (verify : (Nat × Nat) → List Nat → (Int × Int) → Bool) :
    (∀ e, flags &&& VERIFY_STRICTENC ≠ 0 → check_public_key_encoding pair_blob = .error e →
      isCaught e = false →
      op_checksig (pair_blob :: sig_blob :: rest) signature_for_hash_type_f expected_hash_type
        tmp_script flags sigdecode sec_to_public_pair verify = .error e) ∧
    (∀ e, (flags &&& VERIFY_STRICTENC ≠ 0 → check_public_key_encoding pair_blob = .ok ()) →
      parse_signature_blob sig_blob flags sigdecode = .error e → isCaught e = true →
      op_checksig (pair_blob :: sig_blob :: rest) signature_for_hash_type_f expected_hash_type
        tmp_script flags sigdecode sec_to_public_pair verify = .ok (VCH_FALSE :: rest)) ∧
    (∀ pr, (flags &&& VERIFY_STRICTENC ≠ 0 → check_public_key_encoding pair_blob = .ok ()) →
      parse_signature_blob sig_blob flags sigdecode = .ok pr →
      sec_to_public_pair pair_blob (decide (flags &&& VERIFY_STRICTENC ≠ 0)) = .error .encodingError →
      op_checksig (pair_blob :: sig_blob :: rest) signature_for_hash_type_f expected_hash_type
        tmp_script flags sigdecode sec_to_public_pair verify = .ok (VCH_FALSE :: rest)) := by
  refine ⟨?_, ?_, ?_⟩
  · intro e hflag hpk hcaught
    simp only [op_checksig]
    simp [hflag, hpk, hcaught, pyBind_error, pyBind_ok]
  · intro e hpk hparse hcaught
    simp only [op_checksig]
    by_cases hs : flags &&& VERIFY_STRICTENC ≠ 0
    · simp [hs, hpk hs, hparse, hcaught, pyBind_error, pyBind_ok]
    · simp [hs, hparse, hcaught, pyBind_error, pyBind_ok]
  · intro pr hpk hparse hsec
    simp only [op_checksig]
    by_cases hs : flags &&& VERIFY_STRICTENC ≠ 0
    · rw [decide_eq_true hs] at hsec
      simp [hs, hpk hs, hparse, hsec, pyBind_error, pyBind_ok, isCaught]
    · rw [decide_eq_false hs] at hsec
      simp [hs, hparse, hsec, pyBind_error, pyBind_ok, isCaught]

/-- **C2 witness** for the amended severity theorem: with strict encoding
set, a 1-byte public-key blob aborts with the bad-public-key error; with
no flags, a public-pair decoding failure pushes "false". -/
theorem claimC2_op_checksig_error_severity_witness :
    op_checksig [[4], []] (fun _ _ => []) none [] VERIFY_STRICTENC
      (fun _ => .ok (0, 0)) (fun _ _ => .error .encodingError) (fun _ _ _ => true) =
      .error (.scriptError "invalid public key blob") ∧
    op_checksig [[4], []] (fun _ _ => []) none [] 0
      (fun _ => .ok (0, 0)) (fun _ _ => .error .encodingError) (fun _ _ _ => true) =
      .ok (VCH_FALSE :: []) := by
  constructor
  · exact (claimC2_op_checksig_error_severity [] [4] [] VERIFY_STRICTENC (fun _ _ => [])
      none [] (fun _ => .ok (0, 0)) (fun _ _ => .error .encodingError) (fun _ _ _ => true)).1
      (.scriptError "invalid public key blob") (by decide) (by decide) (by decide)
  · exact (claimC2_op_checksig_error_severity [] [4] [] 0 (fun _ _ => [])
      none [] (fun _ => .ok (0, 0)) (fun _ _ => .error .encodingError) (fun _ _ _ => true)).2.2
      ((0, 0), 0) (by decide) (by decide) (by decide)

/-- **C4.**  First half of the claim holds: solving a 2-of-3 multisig
with a lookup that knows only the second key produces
`OP_0 ‖ push(real signature) ‖ push(dummy)` — exactly two signature
slots, one real and one the single-byte dummy.  Second half fails: the
moment a non-empty `existing_script` is supplied, line 89 of
`ScriptMultisig.solve` reads the local variable `script` before its
line-116 assignment, so Python raises `UnboundLocalError` instead of
returning two real signatures. -/
theorem claimC4_partial_multisig_solve_then_crash :
    multisig_solve [[0xa1], [0xa2], [0xa3]] 2
      (some (fun h => if h = [0xa2] then some (7, (0, 0), false) else none))
      0 1 (fun k => k)
      (fun _ _ _ => [0x30, 0x06, 0x02, 0x01, 0x01, 0x02, 0x01, 0x01, 0x01]) none =
      .ok ([0x00] ++ bin_script [[0x30, 0x06, 0x02, 0x01, 0x01, 0x02, 0x01, 0x01, 0x01]] ++
        bin_script [dummy_signature 1]) ∧
    multisig_solve [[0xa1], [0xa2], [0xa3]] 2
      (some (fun h => if h = [0xa1] then some (8, (0, 0), false) else none))
      0 1 (fun k => k)
      (fun _ _ _ => [0x30, 0x06, 0x02, 0x01, 0x01, 0x02, 0x01, 0x02, 0x01]) (some
        ([0x00] ++ bin_script [[0x30, 0x06, 0x02, 0x01, 0x01, 0x02, 0x01, 0x01, 0x01]] ++
          bin_script [dummy_signature 1])) =
      .error (.unboundLocalError "script") := by
  exact ⟨rfl, rfl⟩

/-- The inner key scan only ever proposes an index that is not already
recorded in `sig_blob_indices` (it skips recorded ones). -/
lemma scan_public_pair_blobs_not_mem (strict : Bool)
    (s2pp : List Nat → Bool → Except PyExc (Nat × Nat))
    (ppp : List (Nat × Nat)) (acc : List Int) (i : Nat) :
    ∀ (pubs : List (List Nat)) (idx : Nat),
      scan_public_pair_blobs strict s2pp ppp acc pubs idx = .ok (some i) →
      Int.ofNat i ∉ acc := by
  intro pubs
  induction pubs with
  | nil =>
    intro idx h
    simp [scan_public_pair_blobs] at h
  | cons pb rest ih =>
    intro idx h
    by_cases hmem : (Int.ofNat idx) ∈ acc
    · simp only [scan_public_pair_blobs, if_pos hmem] at h
      exact ih _ h
    · simp only [scan_public_pair_blobs, if_neg hmem] at h
      rcases hck : (if strict then check_public_key_encoding pb else Except.ok ()) with e | u
      · simp only [hck, pyBind_error] at h
        exact Except.noConfusion h
      · simp only [hck, pyBind_ok] at h
        rcases hce : catch_encoding_error (s2pp pb strict) with e | (_ | p)
        · simp only [hce, pyBind_error] at h
          exact Except.noConfusion h
        · simp only [hce, pyBind_ok] at h
          exact ih _ h
        · simp only [hce, pyBind_ok] at h
          by_cases hin : p ∈ ppp
          · rw [if_pos hin] at h
            have : idx = i := Option.some.inj (Except.ok.inj h)
            rw [← this]
            exact hmem
          · rw [if_neg hin] at h
            exact ih _ h

/-- The pairwise-distinctness relation of C10: entries other than the
`-1` sentinel never repeat. -/
def distinct_unless_sentinel (a b : Int) : Prop := a ≠ -1 → a ≠ b

/-- Invariant carried by the matcher loop: the accumulated index list
stays pairwise distinct away from `-1`. -/
lemma sig_blob_matches_loop_pairwise (public_pair_blobs : List (List Nat))
    (tmp_script : List Nat) (signature_for_hash_type_f : Nat → List Nat → List Nat)
    (flags : Nat) (sigdecode : List Nat → Except PyExc (Int × Int))
    (possible_fn : List Nat → (Int × Int) → Except PyExc (List (Nat × Nat)))
    (sec_to_public_pair : List Nat → Bool → Except PyExc (Nat × Nat))
    (exit_early : Bool) :
    ∀ (sbs : List (List Nat)) (cache : List (Nat × List Nat)) (acc out : List Int),
      acc.Pairwise distinct_unless_sentinel →
      sig_blob_matches_loop public_pair_blobs tmp_script signature_for_hash_type_f flags
        sigdecode possible_fn sec_to_public_pair exit_early sbs cache acc = .ok out →
      out.Pairwise distinct_unless_sentinel := by
  intro sbs
  have happ_neg : ∀ acc : List Int, acc.Pairwise distinct_unless_sentinel →
      (acc ++ [-1]).Pairwise distinct_unless_sentinel := by
    intro acc hacc
    rw [List.pairwise_append]
    exact ⟨hacc, List.pairwise_singleton _ _, fun a _ b hb => by
      simp at hb
      intro ha
      rw [hb]
      exact ha⟩
  have happ_idx : ∀ (acc : List Int) (i : Nat), acc.Pairwise distinct_unless_sentinel →
      Int.ofNat i ∉ acc → (acc ++ [Int.ofNat i]).Pairwise distinct_unless_sentinel := by
    intro acc i hacc hni
    rw [List.pairwise_append]
    refine ⟨hacc, List.pairwise_singleton _ _, fun a ha b hb => by
      simp at hb
      intro _
      rw [hb]
      intro hcon
      rw [hcon] at ha
      exact hni ha⟩
  induction sbs with
  | nil =>
    intro cache acc out hacc h
    simp only [sig_blob_matches_loop] at h
    rw [← Except.ok.inj h]
    exact hacc
  | cons sb rest ih =>
    intro cache acc out hacc h
    rcases hp : parse_signature_blob sb flags sigdecode with e | pr
    · simp only [sig_blob_matches_loop, hp] at h
      by_cases hder : e = PyExc.unexpectedDER
      · rw [if_pos hder] at h
        by_cases he : exit_early = true
        · rw [if_pos he] at h
          rw [← Except.ok.inj h]
          exact happ_neg acc hacc
        · rw [if_neg he] at h
          exact ih _ _ _ (happ_neg acc hacc) h
      · rw [if_neg hder] at h
        exact Except.noConfusion h
    · simp only [sig_blob_matches_loop, hp] at h
      rcases hppp : catch_no_such_point (possible_fn
          ((((if (cache.lookup pr.2).isSome then cache
              else cache ++ [(pr.2, signature_for_hash_type_f pr.2 tmp_script)]).lookup
            pr.2).getD [])) pr.1) with e | ppp
      · simp only [hppp, pyBind_error] at h
        exact Except.noConfusion h
      · simp only [hppp, pyBind_ok] at h
        by_cases hlen : ppp.length > 0
        · rw [if_pos hlen] at h
          rcases hscan : scan_public_pair_blobs (decide (flags &&& VERIFY_STRICTENC ≠ 0))
              sec_to_public_pair ppp acc public_pair_blobs 0 with e | (_ | i)
          · simp only [hscan, pyBind_error] at h
            exact Except.noConfusion h
          · simp only [hscan, pyBind_ok] at h
            by_cases he : exit_early = true
            · rw [if_pos he] at h
              rw [← Except.ok.inj h]
              exact happ_neg acc hacc
            · rw [if_neg he] at h
              exact ih _ _ _ (happ_neg acc hacc) h
          · simp only [hscan, pyBind_ok] at h
            have hnm := scan_public_pair_blobs_not_mem _ _ _ _ _ _ _ hscan
            by_cases hcond : (acc ++ [Int.ofNat i]).length > 1 ∧ exit_early = true ∧
                (acc ++ [Int.ofNat i]).getLastD 0 ≤
                  (acc ++ [Int.ofNat i]).getD ((acc ++ [Int.ofNat i]).length - 2) 0
            · rw [if_pos hcond] at h
              rw [← Except.ok.inj h]
              exact happ_idx acc i hacc hnm
            · rw [if_neg hcond] at h
              exact ih _ _ _ (happ_idx acc i hacc hnm) h
        · rw [if_neg hlen] at h
          by_cases he : exit_early = true
          · rw [if_pos he] at h
            rw [← Except.ok.inj h]
            exact hacc
          · rw [if_neg he] at h
            exact ih _ _ _ hacc h

/-- **C10.**  In both early-exit and non-early-exit modes, an index list
returned by `sig_blob_matches` never records the same public-key index
for two different signatures: entries other than the `-1` no-match
sentinel are pairwise distinct, because an already-matched index is
skipped when scanning the keys for each later signature. -/
theorem claimC10_matched_indices_pairwise_distinct
    (sig_blobs public_pair_blobs : List (List Nat)) (tmp_script : List Nat)
    (signature_for_hash_type_f : Nat → List Nat → List Nat) (flags : Nat)
    (sigdecode : List Nat → Except PyExc (Int × Int))
    (possible_fn : List Nat → (Int × Int) → Except PyExc (List (Nat × Nat)))
    (sec_to_public_pair : List Nat → Bool → Except PyExc (Nat × Nat))
    (exit_early : Bool) (out : List Int) :
    sig_blob_matches sig_blobs public_pair_blobs tmp_script signature_for_hash_type_f flags
      sigdecode possible_fn sec_to_public_pair exit_early = .ok out →
    out.Pairwise distinct_unless_sentinel := by
  intro h
  simp only [sig_blob_matches] at h
  rcases hf : sig_blobs.foldlM (fun acc sb => delete_subscript acc (bin_script [sb]))
      tmp_script with e | tmp
  · rw [hf] at h
    exact Except.noConfusion h
  · rw [hf] at h
    exact sig_blob_matches_loop_pairwise public_pair_blobs tmp signature_for_hash_type_f flags
      sigdecode possible_fn sec_to_public_pair exit_early sig_blobs [] [] out
      (List.Pairwise.nil) h

/-- **C10 witness**: a concrete two-signature, two-key early-exit run
returning the index list `[0, 1]`, pairwise distinct. -/
theorem claimC10_matched_indices_pairwise_distinct_witness :
    List.Pairwise distinct_unless_sentinel [(0 : Int), 1] :=
  claimC10_matched_indices_pairwise_distinct [[1], [1]] [[0xb1], [0xb2]] []
    (fun _ _ => []) 0 (fun _ => .ok (1, 1)) (fun _ _ => .ok [(5, 5)])
    (fun _ _ => .ok (5, 5)) true [0, 1] (by rfl)

/-- The multisig acceptance predicate computed by `op_checkmultisig` on
the matcher's index list: every one of the `n` signatures matched (full
length, no `-1`) and the matched indices are strictly increasing. -/
def msig_accept (l : List Int) (n : Nat) : Prop :=
  (-1 : Int) ∉ l ∧ l.length = n ∧ strictly_increasing l = true

instance msig_accept_dec (l : List Int) (n : Nat) : Decidable (msig_accept l n) := by
  unfold msig_accept
  infer_instance

/-- A strictly increasing run stays strictly increasing on a prefix. -/
lemma strictly_increasing_prefix (l t : List Int) :
    strictly_increasing (l ++ t) = true → strictly_increasing l = true := by
  induction l with
  | nil => intro _; rfl
  | cons a l ih =>
    cases l with
    | nil => intro _; rfl
    | cons b l' =>
      intro h
      simp only [List.cons_append, strictly_increasing, Bool.and_eq_true] at h ⊢
      exact ⟨h.1, ih h.2⟩

/-- Appending an element no larger than the current last entry breaks
strict increase. -/
lemma strictly_increasing_append_violation (acc : List Int) (x : Int)
    (hne : acc ≠ []) (hle : x ≤ acc.getLastD 0) :
    strictly_increasing (acc ++ [x]) = false := by
  induction acc with
  | nil => exact absurd rfl hne
  | cons a l ih =>
    cases l with
    | nil =>
      simp only [List.getLastD_cons, List.getLastD_nil] at hle
      simp only [List.cons_append, List.nil_append, strictly_increasing]
      simp only [Bool.and_eq_false_iff, decide_eq_false_iff_not]
      left
      omega
    | cons b l' =>
      have hle' : x ≤ (b :: l').getLastD 0 := by
        simpa [List.getLastD_cons] using hle
      have := ih (by simp) hle'
      simp only [List.cons_append, strictly_increasing, Bool.and_eq_false_iff]
      right
      simpa using this

/-- The last entry of `acc ++ [x]` is `x`, and the entry before it is the
last entry of `acc`. -/
lemma concat_last_pair (acc : List Int) (x : Int) (h : acc ≠ []) :
    (acc ++ [x]).getLastD 0 = x ∧
    (acc ++ [x]).getD ((acc ++ [x]).length - 2) 0 = acc.getLastD 0 := by
  constructor
  · simp [List.getLastD_concat]
  · have hlen : (acc ++ [x]).length - 2 = acc.length - 1 := by
      simp
    have hlt : acc.length - 1 < acc.length := by
      cases acc with
      | nil => exact absurd rfl h
      | cons a l => simp
    rw [hlen, List.getD_append _ _ _ _ hlt, List.getD_eq_getElem?_getD,
      List.getLastD_eq_getLast?, List.getLast?_eq_getElem?]

/-- The matcher loop only ever appends to its accumulator — at most one
entry per signature blob. -/
lemma sig_blob_matches_loop_extends (public_pair_blobs : List (List Nat))
    (tmp_script : List Nat) (signature_for_hash_type_f : Nat → List Nat → List Nat)
    (flags : Nat) (sigdecode : List Nat → Except PyExc (Int × Int))
    (possible_fn : List Nat → (Int × Int) → Except PyExc (List (Nat × Nat)))
    (sec_to_public_pair : List Nat → Bool → Except PyExc (Nat × Nat))
    (exit_early : Bool) :
    ∀ (sbs : List (List Nat)) (cache : List (Nat × List Nat)) (acc out : List Int),
      sig_blob_matches_loop public_pair_blobs tmp_script signature_for_hash_type_f flags
        sigdecode possible_fn sec_to_public_pair exit_early sbs cache acc = .ok out →
      ∃ t, out = acc ++ t ∧ t.length ≤ sbs.length := by
  intro sbs
  induction sbs with
  | nil =>
    intro cache acc out h
    simp only [sig_blob_matches_loop] at h
    exact ⟨[], by rw [← Except.ok.inj h]; simp, by simp⟩
  | cons sb rest ih =>
    intro cache acc out h
    have step : ∀ (cache' : List (Nat × List Nat)) (x : List Int),
        sig_blob_matches_loop public_pair_blobs tmp_script signature_for_hash_type_f flags
          sigdecode possible_fn sec_to_public_pair exit_early rest cache' (acc ++ x) = .ok out →
        x.length ≤ 1 → ∃ t, out = acc ++ t ∧ t.length ≤ (sb :: rest).length := by
      intro cache' x hrec hx
      obtain ⟨t', ht', hlen'⟩ := ih cache' (acc ++ x) out hrec
      refine ⟨x ++ t', by rw [ht']; simp, ?_⟩
      simp only [List.length_append, List.length_cons]
      omega
    have stop : ∀ x : List Int,
        (Except.ok (acc ++ x) : Except PyExc (List Int)) = Except.ok out → x.length ≤ 1 →
        ∃ t, out = acc ++ t ∧ t.length ≤ (sb :: rest).length := by
      intro x hx hl
      refine ⟨x, by rw [← Except.ok.inj hx], ?_⟩
      simp only [List.length_cons]
      omega
    rcases hp : parse_signature_blob sb flags sigdecode with e | pr
    · simp only [sig_blob_matches_loop, hp] at h
      by_cases hder : e = PyExc.unexpectedDER
      · rw [if_pos hder] at h
        by_cases he : exit_early = true
        · rw [if_pos he] at h
          exact stop [-1] h (by simp)
        · rw [if_neg he] at h
          exact step _ [-1] h (by simp)
      · rw [if_neg hder] at h
        exact Except.noConfusion h
    · simp only [sig_blob_matches_loop, hp] at h
      rcases hppp : catch_no_such_point (possible_fn
          ((((if (cache.lookup pr.2).isSome then cache
              else cache ++ [(pr.2, signature_for_hash_type_f pr.2 tmp_script)]).lookup
            pr.2).getD [])) pr.1) with e | ppp
      · simp only [hppp, pyBind_error] at h
        exact Except.noConfusion h
      · simp only [hppp, pyBind_ok] at h
        by_cases hlen : ppp.length > 0
        · rw [if_pos hlen] at h
          rcases hscan : scan_public_pair_blobs (decide (flags &&& VERIFY_STRICTENC ≠ 0))
              sec_to_public_pair ppp acc public_pair_blobs 0 with e | (_ | i)
          · simp only [hscan, pyBind_error] at h
            exact Except.noConfusion h
          · simp only [hscan, pyBind_ok] at h
            by_cases he : exit_early = true
            · rw [if_pos he] at h
              exact stop [-1] h (by simp)
            · rw [if_neg he] at h
              exact step _ [-1] h (by simp)
          · simp only [hscan, pyBind_ok] at h
            by_cases hcond : (acc ++ [Int.ofNat i]).length > 1 ∧ exit_early = true ∧
                (acc ++ [Int.ofNat i]).getLastD 0 ≤
                  (acc ++ [Int.ofNat i]).getD ((acc ++ [Int.ofNat i]).length - 2) 0
            · rw [if_pos hcond] at h
              exact stop [Int.ofNat i] h (by simp)
            · rw [if_neg hcond] at h
              exact step _ [Int.ofNat i] h (by simp)
        · rw [if_neg hlen] at h
          by_cases he : exit_early = true
          · rw [if_pos he] at h
            exact stop [] (by simpa using h) (by simp)
          · rw [if_neg he] at h
            exact step _ [] (by simpa using h) (by simp)

/-- Whenever the non-early-exit (reference) run of the matcher loop
returns, the early-exit run also returns, and the two index lists decide
the multisig acceptance predicate identically.  Each early return
happens only on evidence (a `-1`, a skipped append, or an adjacent
order violation) that already falsifies acceptance for the full run as
well. -/
lemma sig_blob_matches_loop_early_iff_full (public_pair_blobs : List (List Nat))
    (tmp_script : List Nat) (signature_for_hash_type_f : Nat → List Nat → List Nat)
    (flags : Nat) (sigdecode : List Nat → Except PyExc (Int × Int))
    (possible_fn : List Nat → (Int × Int) → Except PyExc (List (Nat × Nat)))
    (sec_to_public_pair : List Nat → Bool → Except PyExc (Nat × Nat)) :
    ∀ (sbs : List (List Nat)) (cache : List (Nat × List Nat)) (acc F : List Int) (n : Nat),
      n = acc.length + sbs.length →
      sig_blob_matches_loop public_pair_blobs tmp_script signature_for_hash_type_f flags
        sigdecode possible_fn sec_to_public_pair false sbs cache acc = .ok F →
      ∃ E, sig_blob_matches_loop public_pair_blobs tmp_script signature_for_hash_type_f flags
        sigdecode possible_fn sec_to_public_pair true sbs cache acc = .ok E ∧
        (msig_accept E n ↔ msig_accept F n) := by
  intro sbs
  induction sbs with
  | nil =>
    intro cache acc F n hn h
    simp only [sig_blob_matches_loop] at h ⊢
    exact ⟨acc, rfl, by rw [← Except.ok.inj h]⟩
  | cons sb rest ih =>
    intro cache acc F n hn h
    have sentinel_stop : ∀ cache' : List (Nat × List Nat),
        sig_blob_matches_loop public_pair_blobs tmp_script signature_for_hash_type_f flags
          sigdecode possible_fn sec_to_public_pair false rest cache' (acc ++ [-1]) = .ok F →
        (msig_accept (acc ++ [-1]) n ↔ msig_accept F n) := by
      intro cache' hrec
      obtain ⟨t, ht, _⟩ := sig_blob_matches_loop_extends public_pair_blobs tmp_script
        signature_for_hash_type_f flags sigdecode possible_fn sec_to_public_pair false
        rest cache' (acc ++ [-1]) F hrec
      refine iff_of_false (fun hA => hA.1 (by simp)) (fun hA => hA.1 ?_)
      rw [ht]
      simp
    rcases hp : parse_signature_blob sb flags sigdecode with e | pr
    · simp only [sig_blob_matches_loop, hp] at h ⊢
      by_cases hder : e = PyExc.unexpectedDER
      · rw [if_pos hder] at h ⊢
        simp only [reduceIte] at h ⊢
        exact ⟨acc ++ [-1], rfl, sentinel_stop cache h⟩
      · rw [if_neg hder] at h
        exact Except.noConfusion h
    · simp only [sig_blob_matches_loop, hp] at h ⊢
      rcases hppp : catch_no_such_point (possible_fn
          ((((if (cache.lookup pr.2).isSome then cache
              else cache ++ [(pr.2, signature_for_hash_type_f pr.2 tmp_script)]).lookup
            pr.2).getD [])) pr.1) with e | ppp
      · simp only [hppp, pyBind_error] at h
        exact Except.noConfusion h
      · simp only [hppp, pyBind_ok] at h ⊢
        by_cases hlen : ppp.length > 0
        · rw [if_pos hlen] at h ⊢
          rcases hscan : scan_public_pair_blobs (decide (flags &&& VERIFY_STRICTENC ≠ 0))
              sec_to_public_pair ppp acc public_pair_blobs 0 with e | (_ | i)
          · simp only [hscan, pyBind_error] at h
            exact Except.noConfusion h
          · simp only [hscan, pyBind_ok, reduceIte] at h ⊢
            exact ⟨acc ++ [-1], rfl, sentinel_stop _ h⟩
          · simp only [hscan, pyBind_ok, Bool.false_eq_true, false_and, and_false,
              if_false, reduceIte, true_and] at h ⊢
            by_cases hviol : (acc ++ [Int.ofNat i]).length > 1 ∧
                (acc ++ [Int.ofNat i]).getLastD 0 ≤
                  (acc ++ [Int.ofNat i]).getD ((acc ++ [Int.ofNat i]).length - 2) 0
            · rw [if_pos hviol]
              refine ⟨acc ++ [Int.ofNat i], rfl, ?_⟩
              have hne : acc ≠ [] := by
                intro hcon
                rw [hcon] at hviol
                simp at hviol
              obtain ⟨hlast, hprev⟩ := concat_last_pair acc (Int.ofNat i) hne
              have hle : Int.ofNat i ≤ acc.getLastD 0 := by
                have := hviol.2
                rw [hlast, hprev] at this
                exact this
              have hsiE : strictly_increasing (acc ++ [Int.ofNat i]) = false :=
                strictly_increasing_append_violation acc (Int.ofNat i) hne hle
              obtain ⟨t, ht, _⟩ := sig_blob_matches_loop_extends public_pair_blobs tmp_script
                signature_for_hash_type_f flags sigdecode possible_fn sec_to_public_pair false
                rest _ (acc ++ [Int.ofNat i]) F h
              have hsiF : strictly_increasing F = true → False := by
                intro hsi
                rw [ht] at hsi
                have := strictly_increasing_prefix _ _ hsi
                rw [hsiE] at this
                exact Bool.noConfusion this
              refine iff_of_false (fun hA => ?_) (fun hA => hsiF hA.2.2)
              have h3 : strictly_increasing (acc ++ [Int.ofNat i]) = true := hA.2.2
              rw [hsiE] at h3
              exact Bool.noConfusion h3
            · rw [if_neg hviol]
              exact ih _ _ _ n (by simp only [List.length_append, List.length_cons, List.length_nil] at hn ⊢; omega) h
        · rw [if_neg hlen] at h ⊢
          simp only [reduceIte] at h ⊢
          refine ⟨acc, rfl, ?_⟩
          obtain ⟨t, ht, htl⟩ := sig_blob_matches_loop_extends public_pair_blobs tmp_script
            signature_for_hash_type_f flags sigdecode possible_fn sec_to_public_pair false
            rest _ acc F h
          refine iff_of_false (fun hA => ?_) (fun hA => ?_)
          · have := hA.2.1
            simp only [List.length_cons] at hn
            omega
          · have := hA.2.1
            rw [ht] at this
            simp only [List.length_append, List.length_cons] at this hn
            omega

/-- With strict encoding off and a SEC decoder that only ever fails with
`EncodingError`, the key scan never raises: a decode failure is just a
non-match. -/
lemma scan_public_pair_blobs_total
    (sec_to_public_pair : List Nat → Bool → Except PyExc (Nat × Nat))
    (ppp : List (Nat × Nat)) (acc : List Int)
    (hs2pp : ∀ b st, sec_to_public_pair b st = .error .encodingError ∨
      ∃ p, sec_to_public_pair b st = .ok p) :
    ∀ (pubs : List (List Nat)) (idx : Nat),
      ∃ o, scan_public_pair_blobs false sec_to_public_pair ppp acc pubs idx = .ok o := by
  intro pubs
  induction pubs with
  | nil => exact fun idx => ⟨none, rfl⟩
  | cons pb rest ih =>
    intro idx
    by_cases hmem : (Int.ofNat idx) ∈ acc
    · obtain ⟨o, ho⟩ := ih (idx + 1)
      exact ⟨o, by simp only [scan_public_pair_blobs, if_pos hmem]; exact ho⟩
    · rcases hs2pp pb false with hce | ⟨p, hce⟩
      · obtain ⟨o, ho⟩ := ih (idx + 1)
        refine ⟨o, ?_⟩
        simp only [scan_public_pair_blobs, if_neg hmem, reduceIte, hce, catch_encoding_error,
          pyBind_ok]
        exact ho
      · by_cases hin : p ∈ ppp
        · refine ⟨some idx, ?_⟩
          simp only [scan_public_pair_blobs, if_neg hmem, reduceIte, hce, catch_encoding_error,
            pyBind_ok]
          rw [if_pos hin]
          rfl
        · obtain ⟨o, ho⟩ := ih (idx + 1)
          refine ⟨o, ?_⟩
          simp only [scan_public_pair_blobs, if_neg hmem, reduceIte, hce, catch_encoding_error,
            pyBind_ok]
          rw [if_neg hin]
          exact ho

/-- With none of the DERSIG/LOW_S/STRICTENC bits set and collaborators
whose failures are the caught classes (`UnexpectedDER` from the DER
decoder, `NoSuchPointError` from candidate recovery, `EncodingError`
from SEC decoding), `parse_signature_blob` fails only with
`UnexpectedDER`. -/
lemma parse_signature_blob_classes (sig_blob : List Nat) (flags : Nat)
    (sigdecode : List Nat → Except PyExc (Int × Int))
    (hf1 : flags &&& (VERIFY_DERSIG ||| VERIFY_LOW_S ||| VERIFY_STRICTENC) = 0)
    (hf2 : flags &&& VERIFY_STRICTENC = 0) (hf3 : flags &&& VERIFY_LOW_S = 0)
    (hsd : ∀ b, sigdecode b = .error .unexpectedDER ∨ ∃ v, sigdecode b = .ok v) :
    parse_signature_blob sig_blob flags sigdecode = .error .unexpectedDER ∨
    ∃ pr, parse_signature_blob sig_blob flags sigdecode = .ok pr := by
  by_cases hempty : sig_blob.length = 0
  · right
    exact ⟨((0, 0), 0), by simp only [parse_signature_blob, if_pos hempty]⟩
  · rcases hsd sig_blob.dropLast with hs | ⟨v, hs⟩
    · left
      simp [parse_signature_blob, hempty, hf1, hf2, hs, pyBind_ok, pyBind_error, pyBind_pure]
    · right
      refine ⟨(v, sig_blob.getLastD 0), ?_⟩
      simp [parse_signature_blob, hempty, hf1, hf2, hf3, hs, pyBind_ok, pyBind_pure]

/-- Under the same hypotheses, the matcher loop never raises in either
mode: every per-signature failure is recorded as a `-1` (or a skipped
append), never an exception — a mismatch cannot abort evaluation. -/
lemma sig_blob_matches_loop_total (public_pair_blobs : List (List Nat))
    (tmp_script : List Nat) (signature_for_hash_type_f : Nat → List Nat → List Nat)
    (flags : Nat) (sigdecode : List Nat → Except PyExc (Int × Int))
    (possible_fn : List Nat → (Int × Int) → Except PyExc (List (Nat × Nat)))
    (sec_to_public_pair : List Nat → Bool → Except PyExc (Nat × Nat))
    (exit_early : Bool)
    (hf1 : flags &&& (VERIFY_DERSIG ||| VERIFY_LOW_S ||| VERIFY_STRICTENC) = 0)
    (hf2 : flags &&& VERIFY_STRICTENC = 0) (hf3 : flags &&& VERIFY_LOW_S = 0)
    (hsd : ∀ b, sigdecode b = .error .unexpectedDER ∨ ∃ v, sigdecode b = .ok v)
    (hpf : ∀ d sp, possible_fn d sp = .error .noSuchPoint ∨ ∃ l, possible_fn d sp = .ok l)
    (hs2pp : ∀ b st, sec_to_public_pair b st = .error .encodingError ∨
      ∃ p, sec_to_public_pair b st = .ok p) :
    ∀ (sbs : List (List Nat)) (cache : List (Nat × List Nat)) (acc : List Int),
      ∃ out, sig_blob_matches_loop public_pair_blobs tmp_script signature_for_hash_type_f flags
        sigdecode possible_fn sec_to_public_pair exit_early sbs cache acc = .ok out := by
  have hdec : decide (flags &&& VERIFY_STRICTENC ≠ 0) = false :=
    decide_eq_false (by simp [hf2])
  intro sbs
  induction sbs with
  | nil => exact fun cache acc => ⟨acc, rfl⟩
  | cons sb rest ih =>
    intro cache acc
    rcases parse_signature_blob_classes sb flags sigdecode hf1 hf2 hf3 hsd with hp | ⟨pr, hp⟩
    · by_cases he : exit_early = true
      · refine ⟨acc ++ [-1], ?_⟩
        simp only [sig_blob_matches_loop, hp, reduceIte, if_pos he]
      · obtain ⟨out, hout⟩ := ih cache (acc ++ [-1])
        refine ⟨out, ?_⟩
        simp only [sig_blob_matches_loop, hp, reduceIte, if_neg he]
        exact hout
    · have hcatch : ∃ ppp, catch_no_such_point (possible_fn
          ((((if (cache.lookup pr.2).isSome then cache
              else cache ++ [(pr.2, signature_for_hash_type_f pr.2 tmp_script)]).lookup
            pr.2).getD [])) pr.1) = .ok ppp := by
        rcases hpf ((((if (cache.lookup pr.2).isSome then cache
            else cache ++ [(pr.2, signature_for_hash_type_f pr.2 tmp_script)]).lookup
          pr.2).getD [])) pr.1 with hq | ⟨l, hq⟩
        · exact ⟨[], by simp [catch_no_such_point, hq]⟩
        · exact ⟨l, by simp [catch_no_such_point, hq]⟩
      obtain ⟨ppp, hppp⟩ := hcatch
      by_cases hlen : ppp.length > 0
      · obtain ⟨o, hscan⟩ := scan_public_pair_blobs_total sec_to_public_pair ppp acc hs2pp
          public_pair_blobs 0
        rcases o with _ | i
        · by_cases he : exit_early = true
          · refine ⟨acc ++ [-1], ?_⟩
            simp only [sig_blob_matches_loop, hp, hppp, pyBind_ok, if_pos hlen, hdec, hscan,
              reduceIte, if_pos he]
          · obtain ⟨out, hout⟩ := ih (if (cache.lookup pr.2).isSome then cache
              else cache ++ [(pr.2, signature_for_hash_type_f pr.2 tmp_script)]) (acc ++ [-1])
            refine ⟨out, ?_⟩
            simp only [sig_blob_matches_loop, hp, hppp, pyBind_ok, if_pos hlen, hdec, hscan,
              reduceIte, if_neg he]
            exact hout
        · by_cases hcond : (acc ++ [Int.ofNat i]).length > 1 ∧ exit_early = true ∧
              (acc ++ [Int.ofNat i]).getLastD 0 ≤
                (acc ++ [Int.ofNat i]).getD ((acc ++ [Int.ofNat i]).length - 2) 0
          · refine ⟨acc ++ [Int.ofNat i], ?_⟩
            simp only [sig_blob_matches_loop, hp, hppp, pyBind_ok, if_pos hlen, hdec, hscan]
            rw [if_pos hcond]
          · obtain ⟨out, hout⟩ := ih (if (cache.lookup pr.2).isSome then cache
              else cache ++ [(pr.2, signature_for_hash_type_f pr.2 tmp_script)])
              (acc ++ [Int.ofNat i])
            refine ⟨out, ?_⟩
            simp only [sig_blob_matches_loop, hp, hppp, pyBind_ok, if_pos hlen, hdec, hscan]
            rw [if_neg hcond]
            exact hout
      · by_cases he : exit_early = true
        · refine ⟨acc, ?_⟩
          simp only [sig_blob_matches_loop, hp, hppp, pyBind_ok, if_neg hlen, if_pos he]
        · obtain ⟨out, hout⟩ := ih (if (cache.lookup pr.2).isSome then cache
            else cache ++ [(pr.2, signature_for_hash_type_f pr.2 tmp_script)]) acc
          refine ⟨out, ?_⟩
          simp only [sig_blob_matches_loop, hp, hppp, pyBind_ok, if_neg hlen, if_neg he]
          exact hout

/-- **C3.**  Three parts.
(1) On a stack carrying `key_count` key blobs, `signature_count`
signature blobs and the historical dummy element, `op_checkmultisig`
never aborts past its count checks: it pushes a boolean, and it pushes
"true" precisely when the reference (non-early-exit) matching run
records a match for every signature (full length, no `-1` sentinel) with
strictly increasing key indices — the early-exit optimisation used by
the opcode decides acceptance identically to the full run.
(2) With none of the strict flag bits set and collaborators failing only
with their caught exception classes, the early-exit matcher always
returns an index list: a mismatch never aborts evaluation.
(3) The claim's example: keys `[K1, K2, K3]` with the supplied
signatures valid for `K2` and then `K1` — both individually valid —
push "false" (indices `[1, 0]` are not increasing). -/
theorem claimC3_checkmultisig_accept_iff_full_match
    (public_pair_blobs sig_blobs rest : List (List Nat)) (kc_blob sc_blob : List Nat)
    (signature_for_hash_type_f : Nat → List Nat → List Nat)
    (tmp_script : List Nat) (flags : Nat)
    (sigdecode : List Nat → Except PyExc (Int × Int))
    (possible_fn : List Nat → (Int × Int) → Except PyExc (List (Nat × Nat)))
    (sec_to_public_pair : List Nat → Bool → Except PyExc (Nat × Nat)) (F : List Int) :
    (int_from_script_bytes kc_blob (decide (flags &&& VERIFY_MINIMALDATA ≠ 0)) =
        .ok (public_pair_blobs.length : Int) →
      public_pair_blobs.length ≤ 20 →
      int_from_script_bytes sc_blob (decide (flags &&& VERIFY_MINIMALDATA ≠ 0)) =
        .ok (sig_blobs.length : Int) →
      sig_blobs.length ≤ public_pair_blobs.length →
      flags &&& VERIFY_NULLDUMMY = 0 →
      sig_blob_matches sig_blobs public_pair_blobs tmp_script signature_for_hash_type_f flags
        sigdecode possible_fn sec_to_public_pair false = .ok F →
      ∃ r, op_checkmultisig
          (kc_blob :: (public_pair_blobs ++ sc_blob :: (sig_blobs ++ [] :: rest)))
          signature_for_hash_type_f tmp_script flags sigdecode possible_fn sec_to_public_pair =
          .ok (r :: rest, (public_pair_blobs.length : Int)) ∧
        (r = VCH_TRUE ↔ msig_accept F sig_blobs.length) ∧
        (r = VCH_TRUE ∨ r = VCH_FALSE)) ∧
    (flags &&& (VERIFY_DERSIG ||| VERIFY_LOW_S ||| VERIFY_STRICTENC) = 0 →
      flags &&& VERIFY_STRICTENC = 0 → flags &&& VERIFY_LOW_S = 0 →
      (∀ b, sigdecode b = .error .unexpectedDER ∨ ∃ v, sigdecode b = .ok v) →
      (∀ d sp, possible_fn d sp = .error .noSuchPoint ∨ ∃ l, possible_fn d sp = .ok l) →
      (∀ b st, sec_to_public_pair b st = .error .encodingError ∨
        ∃ p, sec_to_public_pair b st = .ok p) →
      ∀ tmp, sig_blobs.foldlM (fun acc sb => delete_subscript acc (bin_script [sb]))
          tmp_script = .ok tmp →
      ∃ out, sig_blob_matches sig_blobs public_pair_blobs tmp_script signature_for_hash_type_f
        flags sigdecode possible_fn sec_to_public_pair true = .ok out) ∧
    op_checkmultisig [[3], [0xb1], [0xb2], [0xb3], [2], [0x0a], [0x0b], [], [0x99]]
        (fun t _ => [t]) [] 0 (fun _ => .ok (1, 1))
        (fun d _ => .ok (if d = [0x0a] then [(2, 2)] else [(1, 1)]))
        (fun b _ => .ok (if b = [0xb1] then (1, 1) else if b = [0xb2] then (2, 2) else (3, 3))) =
      .ok ([VCH_FALSE, [0x99]], 3) := by
  refine ⟨?_, ?_, by rfl⟩
  · intro hkc hk20 hsc hsk hnd hfull
    have hfold : ∀ X, sig_blob_matches sig_blobs public_pair_blobs tmp_script
        signature_for_hash_type_f flags sigdecode possible_fn sec_to_public_pair X =
        (match sig_blobs.foldlM (fun acc sb => delete_subscript acc (bin_script [sb]))
            tmp_script with
         | .error e => .error e
         | .ok tmp => sig_blob_matches_loop public_pair_blobs tmp signature_for_hash_type_f
            flags sigdecode possible_fn sec_to_public_pair X sig_blobs [] []) :=
      fun X => rfl
    rcases hfd : sig_blobs.foldlM (fun acc sb => delete_subscript acc (bin_script [sb]))
        tmp_script with e | tmp
    · rw [hfold false, hfd] at hfull
      exact absurd hfull (by simp)
    · rw [hfold false, hfd] at hfull
      simp only at hfull
      obtain ⟨E, hE, hiff⟩ := sig_blob_matches_loop_early_iff_full public_pair_blobs tmp
        signature_for_hash_type_f flags sigdecode possible_fn sec_to_public_pair
        sig_blobs [] [] F sig_blobs.length (by simp) hfull
      have hEarly : sig_blob_matches sig_blobs public_pair_blobs tmp_script
          signature_for_hash_type_f flags sigdecode possible_fn sec_to_public_pair true =
          .ok E := by
        rw [hfold true, hfd]
        exact hE
      refine ⟨if msig_accept E sig_blobs.length then VCH_TRUE else VCH_FALSE, ?_, ?_, ?_⟩
      · simp only [op_checkmultisig, hkc]
        rw [if_neg (by omega)]
        rw [show ((public_pair_blobs.length : Int)).toNat = public_pair_blobs.length from
          Int.toNat_ofNat _]
        rw [if_neg (by simp)]
        rw [List.take_left, List.drop_left]
        simp only [hsc]
        rw [if_neg (by omega)]
        rw [show ((sig_blobs.length : Int)).toNat = sig_blobs.length from Int.toNat_ofNat _]
        rw [if_neg (by simp)]
        rw [List.take_left, List.drop_left]
        simp only []
        rw [if_neg (by simp)]
        rw [hEarly]
        simp only []
        by_cases hacc : msig_accept E sig_blobs.length
        · rw [if_pos hacc, if_pos]
          exact hacc
        · rw [if_neg hacc, if_neg]
          exact hacc
      · by_cases hacc : msig_accept E sig_blobs.length
        · rw [if_pos hacc]
          exact iff_of_true rfl (hiff.mp hacc)
        · rw [if_neg hacc]
          exact iff_of_false (by decide) (fun hF => hacc (hiff.mpr hF))
      · by_cases hacc : msig_accept E sig_blobs.length
        · rw [if_pos hacc]
          exact Or.inl rfl
        · rw [if_neg hacc]
          exact Or.inr rfl
  · intro hf1 hf2 hf3 hsd hpf hs2pp tmp hfd
    obtain ⟨out, hout⟩ := sig_blob_matches_loop_total public_pair_blobs tmp
      signature_for_hash_type_f flags sigdecode possible_fn sec_to_public_pair true
      hf1 hf2 hf3 hsd hpf hs2pp sig_blobs [] []
    refine ⟨out, ?_⟩
    simp only [sig_blob_matches, hfd]
    exact hout

/-- **C3 witness**: the concrete K2-then-K1 instance run through part
(1) of the theorem — the full run returns indices `[1, 0]`, acceptance
fails, and the opcode pushes "false". -/
theorem claimC3_checkmultisig_accept_iff_full_match_witness :
    ∃ r, op_checkmultisig [[3], [0xb1], [0xb2], [0xb3], [2], [0x0a], [0x0b], [], [0x99]]
        (fun t _ => [t]) [] 0 (fun _ => .ok (1, 1))
        (fun d _ => .ok (if d = [0x0a] then [(2, 2)] else [(1, 1)]))
        (fun b _ => .ok (if b = [0xb1] then (1, 1) else if b = [0xb2] then (2, 2) else (3, 3))) =
        .ok (r :: [[0x99]], ([[0xb1], [0xb2], [0xb3]].length : Int)) ∧
      (r = VCH_TRUE ↔ msig_accept [1, 0] [[0x0a], [0x0b]].length) ∧
      (r = VCH_TRUE ∨ r = VCH_FALSE) :=
  (claimC3_checkmultisig_accept_iff_full_match [[0xb1], [0xb2], [0xb3]] [[0x0a], [0x0b]]
    [[0x99]] [3] [2] (fun t _ => [t]) [] 0 (fun _ => .ok (1, 1))
    (fun d _ => .ok (if d = [0x0a] then [(2, 2)] else [(1, 1)]))
    (fun b _ => .ok (if b = [0xb1] then (1, 1) else if b = [0xb2] then (2, 2) else (3, 3)))
    [1, 0]).1 (by rfl) (by decide) (by rfl) (by decide) (by decide) (by rfl)

/-! ### C8: compile ∘ disassemble round trip -/

/-- Fixed-width little-endian decode inverts encode below the width
bound. -/
lemma from_to_bytes_le (w v : Nat) (h : v < 256 ^ w) :
    from_bytes_le (to_bytes_le w v) = v := by
  induction w generalizing v with
  | zero =>
    simp only [Nat.pow_zero, Nat.lt_one_iff] at h
    simp [to_bytes_le, from_bytes_le, h]
  | succ w ih =>
    have hlt : v / 256 < 256 ^ w := by
      rw [Nat.div_lt_iff_lt_mul (by omega)]
      calc v < 256 ^ (w + 1) := h
      _ = 256 ^ w * 256 := by ring
    simp only [to_bytes_le, from_bytes_le, List.foldr_cons]
    have := ih (v / 256) hlt
    simp only [from_bytes_le] at this
    rw [this]
    omega

/-- One hex digit decodes back to its value. -/
lemma hex_val_hex_digit : ∀ n : Nat, n < 16 → hex_val (hex_digit n) = some n := by
  decide

/-- Hex digits are never whitespace, brackets, quotes, or capital O. -/
lemma hex_digit_plain : ∀ n : Nat, n < 16 →
    (hex_digit n).isWhitespace = false ∧ hex_digit n ≠ Char.ofNat 39 ∧
    hex_digit n ≠ Char.ofNat 91 ∧ hex_digit n ≠ Char.ofNat 79 := by
  decide

/-- `binascii.unhexlify` inverts `binascii.hexlify` on byte strings. -/
lemma unhexlify_hexlify (bs : List Nat) (h : ∀ x ∈ bs, x < 256) :
    unhexlify (hexlify bs) = .ok bs := by
  induction bs with
  | nil => rfl
  | cons b t ih =>
    have hb : b < 256 := h b (by simp)
    have h1 : b / 16 < 16 := by omega
    have h2 : b % 16 < 16 := by omega
    have ht := ih (fun x hx => h x (by simp [hx]))
    show unhexlify (hex_digit (b / 16) :: hex_digit (b % 16) :: hexlify t) = Except.ok (b :: t)
    simp only [unhexlify, hex_val_hex_digit _ h1, hex_val_hex_digit _ h2]
    rw [ht]
    have hbb : 16 * (b / 16) + b % 16 = b := by omega
    simp [Except.map, hbb]

/-- Every character of `hexlify bs` is a plain hex digit. -/
lemma hexlify_chars (bs : List Nat) (h : ∀ x ∈ bs, x < 256) :
    ∀ c ∈ hexlify bs, c.isWhitespace = false ∧ c ≠ Char.ofNat 39 ∧
      c ≠ Char.ofNat 91 ∧ c ≠ Char.ofNat 79 := by
  intro c hc
  simp only [hexlify, List.mem_flatten, List.mem_map] at hc
  obtain ⟨l, ⟨b, hb, hl⟩, hcl⟩ := hc
  have hblt : b < 256 := h b hb
  rw [← hl] at hcl
  simp only [List.mem_cons, List.not_mem_nil, or_false] at hcl
  rcases hcl with hcl | hcl <;> rw [hcl]
  · exact hex_digit_plain (b / 16) (by omega)
  · exact hex_digit_plain (b % 16) (by omega)

/-- Scanning over a run of non-whitespace characters just accumulates
them. -/
lemma splitWSAux_word (w : List Char) (hns : ∀ c ∈ w, c.isWhitespace = false) :
    ∀ (rest acc : List Char), splitWSAux (w ++ rest) acc = splitWSAux rest (w.reverse ++ acc) := by
  induction w with
  | nil => intro rest acc; simp
  | cons c w' ih =>
    intro rest acc
    have hc : c.isWhitespace = false := hns c (by simp)
    simp only [List.cons_append, splitWSAux, hc, Bool.false_eq_true, if_false,
      List.reverse_cons, List.append_assoc, List.singleton_append]
    exact ih (fun x hx => hns x (by simp [hx])) rest (c :: acc)

/-- Python `split()` inverts `' '.join` on non-empty whitespace-free
tokens. -/
lemma splitWS_join_spaces (tokens : List (List Char))
    (h : ∀ t ∈ tokens, t ≠ [] ∧ ∀ c ∈ t, c.isWhitespace = false) :
    splitWS (join_spaces tokens) = tokens := by
  induction tokens with
  | nil => rfl
  | cons t ts ih =>
    obtain ⟨hne, hns⟩ := h t (by simp)
    cases ts with
    | nil =>
      simp only [join_spaces, List.intersperse_single, List.flatten_cons, List.flatten_nil,
        List.append_nil, splitWS]
      rw [show (t : List Char) = t ++ [] by simp, splitWSAux_word t hns [] []]
      simp only [splitWSAux, List.append_nil]
      rw [if_neg (by simp [hne])]
      simp
    | cons t2 ts2 =>
      have hih := ih (fun x hx => h x (by simp [hx]))
      simp only [join_spaces, List.intersperse_cons_cons, List.flatten_cons, splitWS] at hih ⊢
      rw [splitWSAux_word t hns _ [], List.append_nil]
      have hsp : (' ' : Char).isWhitespace = true := by decide
      simp only [List.singleton_append, splitWSAux, hsp, if_true]
      rw [if_neg (by simp [hne])]
      rw [List.reverse_reverse]
      show t :: splitWSAux ((List.intersperse [' '] (t2 :: ts2)).flatten) [] = t :: t2 :: ts2
      rw [hih]

/-- Every mnemonic in the table starts with the letter O (code 79). -/
lemma opcode_table_heads : ∀ p ∈ OPCODE_TABLE, p.1.headD (Char.ofNat 32) = Char.ofNat 79 := by
  decide

/-- No mnemonic in the table has an opening bracket (code 91) as its
fourth character. -/
lemma opcode_table_fourth : ∀ p ∈ OPCODE_TABLE, p.1.getD 3 (Char.ofNat 32) ≠ Char.ofNat 91 := by
  decide

/-- Every mnemonic in the table is non-empty and whitespace-free. -/
lemma opcode_table_tokens :
    ∀ p ∈ OPCODE_TABLE, p.1 ≠ [] ∧ ∀ c ∈ p.1, c.isWhitespace = false := by
  decide

/-- A token whose head is not the letter O is not a table mnemonic. -/
lemma OPCODE_TO_INT_none_of_head (k : List Char)
    (hk : k.headD (Char.ofNat 32) ≠ Char.ofNat 79) : OPCODE_TO_INT k = none := by
  unfold OPCODE_TO_INT
  rw [List.find?_eq_none.mpr]
  · rfl
  · intro p hp
    simp only [decide_eq_true_eq]
    intro hcon
    apply hk
    rw [← hcon]
    exact opcode_table_heads p hp

/-- A token whose fourth character is an opening bracket is not a table
mnemonic. -/
lemma OPCODE_TO_INT_none_of_fourth (k : List Char)
    (hk : k.getD 3 (Char.ofNat 32) = Char.ofNat 91) : OPCODE_TO_INT k = none := by
  unfold OPCODE_TO_INT
  rw [List.find?_eq_none.mpr]
  · rfl
  · intro p hp
    simp only [decide_eq_true_eq]
    intro hcon
    apply opcode_table_fourth p hp
    rw [hcon]
    exact hk

/-- Compiling a bracketed hex token pushes the decoded data back through
`write_push_data`. -/
lemma compile_token_bracket (d : List Nat) (hne : d ≠ []) (hb : ∀ x ∈ d, x < 256) :
    compile_token ((Char.ofNat 91 :: hexlify d) ++ [Char.ofNat 93]) =
      .ok (write_push_data [d]) := by
  have h1 : OPCODE_TO_INT ((Char.ofNat 91 :: hexlify d) ++ [Char.ofNat 93]) = none := by
    apply OPCODE_TO_INT_none_of_head
    simp only [List.cons_append, List.headD_cons]
    decide
  have h2 : OPCODE_TO_INT ("OP_".data ++ ((Char.ofNat 91 :: hexlify d) ++ [Char.ofNat 93])) =
      none := by
    apply OPCODE_TO_INT_none_of_fourth
    rfl
  obtain ⟨b0, d', hd⟩ : ∃ b0 d', d = b0 :: d' := by
    cases d with
    | nil => exact absurd rfl hne
    | cons a l => exact ⟨a, l, rfl⟩
  have hb0 : b0 < 256 := hb b0 (by rw [hd]; simp)
  have hhexd : hexlify d = hex_digit (b0 / 16) :: hex_digit (b0 % 16) :: hexlify d' := by
    rw [hd]; rfl
  simp only [compile_token, h1, h2]
  rw [if_neg (by rw [hhexd]; intro hcon; simp at hcon)]
  rw [show ((Char.ofNat 91 :: hexlify d) ++ [Char.ofNat 93]).head? = some (Char.ofNat 91) by
    simp]
  rw [show ((Char.ofNat 91 :: hexlify d) ++ [Char.ofNat 93]).getLast? = some (Char.ofNat 93) from
    List.getLast?_concat _]
  simp only []
  simp only [and_self, if_true]
  rw [show ((Char.ofNat 91 :: hexlify d) ++ [Char.ofNat 93]).drop 1 =
    hexlify d ++ [Char.ofNat 93] by simp]
  rw [List.dropLast_concat]
  rw [if_neg]
  · rw [unhexlify_hexlify d hb]
    rfl
  · intro hcon
    have hhead := hcon.1
    rw [hhexd] at hhead
    simp only [List.head?_cons, Option.some.injEq] at hhead
    exact (hex_digit_plain (b0 / 16) (by omega)).2.1 hhead

/-- `struct.pack` emits exactly `w` bytes. -/
lemma length_to_bytes_le (w v : Nat) : (to_bytes_le w v).length = w := by
  induction w generalizing v with
  | zero => rfl
  | succ w ih => simp [to_bytes_le, ih]

/-- `int_to_bytes` of a value below 256 is the single byte. -/
lemma int_to_bytes_small (v : Nat) (h : v < 256) : int_to_bytes v = [v] := by
  simp [int_to_bytes, min_be_bytes, h]

/-- The sixteen-plus-one small-integer opcodes: each has a mnemonic in
the table that compiles back to the same single byte, non-empty and
whitespace-free. -/
lemma smallint_facts : ∀ v : Nat, v < 17 →
    compile_token ((INT_TO_OPCODE (op_int v)).getD ("???").data) = .ok [op_int v] ∧
    (INT_TO_OPCODE (op_int v)).getD ("???").data ≠ [] ∧
    ∀ c ∈ (INT_TO_OPCODE (op_int v)).getD ("???").data, c.isWhitespace = false := by
  decide

/-- Compiling a table mnemonic yields its opcode byte. -/
lemma compile_token_name (b : Nat) (h : OPCODE_TO_INT ((INT_TO_OPCODE b).getD []) = some b) :
    compile_token ((INT_TO_OPCODE b).getD []) = .ok [b] := by
  simp only [compile_token, h]

/-- A byte with a table mnemonic yields a non-empty whitespace-free
token. -/
lemma name_token_facts (b : Nat) (h : (INT_TO_OPCODE b).isSome = true) :
    (INT_TO_OPCODE b).getD [] ≠ [] ∧
    ∀ c ∈ (INT_TO_OPCODE b).getD [], c.isWhitespace = false := by
  unfold INT_TO_OPCODE at h ⊢
  rcases hf : OPCODE_TABLE.find? (fun p => p.2 = b) with _ | p
  · rw [hf] at h
    simp at h
  · have hmem := List.mem_of_find?_eq_some hf
    have := opcode_table_tokens p hmem
    rw [hf]
    simpa using this

/-- Shifting a slice past a prefix. -/
lemma pySlice_append_shift (u rest : List Nat) (a b : Nat) :
    pySlice (u ++ rest) (u.length + a) (u.length + b) = pySlice rest a b := by
  unfold pySlice
  rw [List.drop_append]
  congr 1
  omega

/-- `get_opcode` relative to a consumed prefix. -/
lemma get_opcode_append_shift (u rest : List Nat) (k : Nat) :
    get_opcode (u ++ rest) (u.length + k) =
      (get_opcode rest k).map (fun r => (r.1, r.2.1, u.length + r.2.2)) := by
  unfold get_opcode
  rw [List.drop_append]
  rcases hh : (rest.drop k).head? with _ | op
  · rfl
  · simp only []
    by_cases hop : op ≤ OP_PUSHDATA4
    · rw [if_pos hop, if_pos hop]
      by_cases h1 : op < OP_PUSHDATA1
      · rw [if_pos h1, if_pos h1]
        simp only []
        rw [show u.length + k + 1 = u.length + (k + 1) by omega,
          show u.length + (k + 1) + op = u.length + (k + 1 + op) by omega,
          pySlice_append_shift]
        by_cases hlt : (pySlice rest (k + 1) (k + 1 + op)).length < op
        · rw [if_pos hlt, if_pos hlt]
          rfl
        · rw [if_neg hlt, if_neg hlt]
          simp only [Except.map]
      · rw [if_neg h1, if_neg h1]
        by_cases h2 : op = OP_PUSHDATA1
        · rw [if_pos h2, if_pos h2]
          simp only []
          rw [show u.length + k + 1 = u.length + (k + 1) by omega,
            show u.length + (k + 1) + 1 = u.length + (k + 1 + 1) by omega,
            pySlice_append_shift,
            show u.length + (k + 1 + 1) + from_bytes_le (pySlice rest (k + 1) (k + 1 + 1)) =
              u.length + (k + 1 + 1 + from_bytes_le (pySlice rest (k + 1) (k + 1 + 1))) by omega,
            pySlice_append_shift]
          by_cases hlt : (pySlice rest (k + 1 + 1)
              (k + 1 + 1 + from_bytes_le (pySlice rest (k + 1) (k + 1 + 1)))).length <
              from_bytes_le (pySlice rest (k + 1) (k + 1 + 1))
          · rw [if_pos hlt, if_pos hlt]
            rfl
          · rw [if_neg hlt, if_neg hlt]
            simp only [Except.map]
        · rw [if_neg h2, if_neg h2]
          by_cases h3 : op = OP_PUSHDATA2
          · rw [if_pos h3, if_pos h3]
            simp only []
            rw [show u.length + k + 1 = u.length + (k + 1) by omega,
              show u.length + (k + 1) + 2 = u.length + (k + 1 + 2) by omega,
              pySlice_append_shift,
              show u.length + (k + 1 + 2) + from_bytes_le (pySlice rest (k + 1) (k + 1 + 2)) =
                u.length + (k + 1 + 2 + from_bytes_le (pySlice rest (k + 1) (k + 1 + 2)))
                by omega,
              pySlice_append_shift]
            by_cases hlt : (pySlice rest (k + 1 + 2)
                (k + 1 + 2 + from_bytes_le (pySlice rest (k + 1) (k + 1 + 2)))).length <
                from_bytes_le (pySlice rest (k + 1) (k + 1 + 2))
            · rw [if_pos hlt, if_pos hlt]
              rfl
            · rw [if_neg hlt, if_neg hlt]
              simp only [Except.map]
          · rw [if_neg h3, if_neg h3]
            simp only []
            rw [show u.length + k + 1 = u.length + (k + 1) by omega,
              show u.length + (k + 1) + 4 = u.length + (k + 1 + 4) by omega,
              pySlice_append_shift,
              show u.length + (k + 1 + 4) + from_bytes_le (pySlice rest (k + 1) (k + 1 + 4)) =
                u.length + (k + 1 + 4 + from_bytes_le (pySlice rest (k + 1) (k + 1 + 4)))
                by omega,
              pySlice_append_shift]
            by_cases hlt : (pySlice rest (k + 1 + 4)
                (k + 1 + 4 + from_bytes_le (pySlice rest (k + 1) (k + 1 + 4)))).length <
                from_bytes_le (pySlice rest (k + 1) (k + 1 + 4))
            · rw [if_pos hlt, if_pos hlt]
              rfl
            · rw [if_neg hlt, if_neg hlt]
              simp only [Except.map]
    · rw [if_neg hop, if_neg hop]
      rfl

/-- The tokenising loop relative to a consumed prefix. -/
lemma opcode_list_fuel_shift (u rest : List Nat) :
    ∀ (fuel k : Nat),
      opcode_list_fuel fuel (u ++ rest) (u.length + k) = opcode_list_fuel fuel rest k := by
  intro fuel
  induction fuel with
  | zero =>
    intro k
    simp only [opcode_list_fuel, List.length_append]
    by_cases hk : k < rest.length
    · rw [if_pos (by omega), if_pos hk]
    · rw [if_neg (by omega), if_neg hk]
  | succ fuel ih =>
    intro k
    simp only [opcode_list_fuel, List.length_append]
    by_cases hk : k < rest.length
    · rw [if_pos (by omega), if_pos hk]
      rw [get_opcode_append_shift]
      rcases hg : get_opcode rest k with e | r
      · simp [Except.map]
      · obtain ⟨op, dat, pc2⟩ := r
        simp only [Except.map]
        rw [ih pc2]
    · rw [if_neg (by omega), if_neg hk]

/-- `bin_script` of a single blob is the per-blob encoding. -/
lemma bin_script_single (d : List Nat) : bin_script [d] = push_data_bytes d := by
  simp [bin_script, write_push_data]

/-- Decoding a literal-length push unit. -/
lemma get_opcode_lit (L : Nat) (d tail : List Nat) (hL : d.length = L) (h76 : L < 76) :
    get_opcode ((L :: d) ++ tail) 0 = .ok (L, some d, 1 + L) := by
  have hpd : push_decl ((L :: d) ++ tail) 0 = (L, 1) := by
    simp [push_decl, OP_PUSHDATA1, OP_PUSHDATA2, OP_PUSHDATA4, h76]
  have hslice : pySlice ((L :: d) ++ tail) 1 (1 + L) = d := by
    simp only [pySlice, List.cons_append, List.drop_succ_cons, List.drop_zero]
    rw [show 1 + L - 1 = L by omega, List.take_left' hL]
  rw [get_opcode_push_eq ((L :: d) ++ tail) 0 L (d ++ tail) (by simp)
    (by simp [OP_PUSHDATA4]; omega)]
  rw [hpd]
  simp only []
  rw [hslice, hL]
  rw [if_neg (by omega)]

/-- Decoding an `OP_PUSHDATA1` unit. -/
lemma get_opcode_pd1 (L : Nat) (d tail : List Nat) (hL : d.length = L) (h256 : L < 256) :
    get_opcode ((0x4c :: L :: d) ++ tail) 0 = .ok (0x4c, some d, 2 + L) := by
  have hpd : push_decl ((0x4c :: L :: d) ++ tail) 0 = (L, 2) := by
    have h1 : pySlice (0x4c :: L :: (d ++ tail)) 1 2 = [L] := by
      simp [pySlice]
    simp [push_decl, OP_PUSHDATA1, OP_PUSHDATA2, OP_PUSHDATA4, h1, from_bytes_le]
  have hslice : pySlice ((0x4c :: L :: d) ++ tail) 2 (2 + L) = d := by
    simp only [pySlice, List.cons_append, List.drop_succ_cons, List.drop_zero]
    rw [show 2 + L - 2 = L by omega, List.take_left' hL]
  rw [get_opcode_push_eq ((0x4c :: L :: d) ++ tail) 0 0x4c (L :: (d ++ tail)) (by simp)
    (by decide)]
  rw [hpd]
  simp only []
  rw [hslice, hL]
  rw [if_neg (by omega)]

/-- Decoding an `OP_PUSHDATA2` unit. -/
lemma get_opcode_pd2 (L : Nat) (d tail : List Nat) (hL : d.length = L) (h64 : L < 65536) :
    get_opcode ((0x4d :: (to_bytes_le 2 L ++ d)) ++ tail) 0 = .ok (0x4d, some d, 3 + L) := by
  have hpd : push_decl ((0x4d :: (to_bytes_le 2 L ++ d)) ++ tail) 0 = (L, 3) := by
    have h1 : pySlice (0x4d :: (to_bytes_le 2 L ++ (d ++ tail))) 1 3 = to_bytes_le 2 L := by
      simp only [pySlice, List.drop_succ_cons, List.drop_zero]
      rw [show 3 - 1 = 2 by omega, List.take_left' (length_to_bytes_le 2 L)]
    simp [push_decl, OP_PUSHDATA1, OP_PUSHDATA2, OP_PUSHDATA4, h1,
      from_to_bytes_le 2 L (by omega)]
  have hslice : pySlice ((0x4d :: (to_bytes_le 2 L ++ d)) ++ tail) 3 (3 + L) = d := by
    simp only [pySlice, List.cons_append, List.append_assoc, List.drop_succ_cons,
      List.drop_zero]
    rw [show 3 + L - 3 = L by omega]
    rw [List.drop_left' (length_to_bytes_le 2 L), List.take_left' hL]
  rw [get_opcode_push_eq ((0x4d :: (to_bytes_le 2 L ++ d)) ++ tail) 0 0x4d
    (to_bytes_le 2 L ++ d ++ tail) (by simp) (by decide)]
  rw [hpd]
  simp only []
  rw [hslice, hL]
  rw [if_neg (by omega)]

/-- Decoding an `OP_PUSHDATA4` unit. -/
lemma get_opcode_pd4 (L : Nat) (d tail : List Nat) (hL : d.length = L)
    (h32 : L < 4294967296) :
    get_opcode ((0x4e :: (to_bytes_le 4 L ++ d)) ++ tail) 0 = .ok (0x4e, some d, 5 + L) := by
  have hpd : push_decl ((0x4e :: (to_bytes_le 4 L ++ d)) ++ tail) 0 = (L, 5) := by
    have h1 : pySlice (0x4e :: (to_bytes_le 4 L ++ (d ++ tail))) 1 5 = to_bytes_le 4 L := by
      simp only [pySlice, List.drop_succ_cons, List.drop_zero]
      rw [show 5 - 1 = 4 by omega, List.take_left' (length_to_bytes_le 4 L)]
    simp [push_decl, OP_PUSHDATA1, OP_PUSHDATA2, OP_PUSHDATA4, h1,
      from_to_bytes_le 4 L (by omega)]
  have hslice : pySlice ((0x4e :: (to_bytes_le 4 L ++ d)) ++ tail) 5 (5 + L) = d := by
    simp only [pySlice, List.cons_append, List.append_assoc, List.drop_succ_cons,
      List.drop_zero]
    rw [show 5 + L - 5 = L by omega]
    rw [List.drop_left' (length_to_bytes_le 4 L), List.take_left' hL]
  rw [get_opcode_push_eq ((0x4e :: (to_bytes_le 4 L ++ d)) ++ tail) 0 0x4e
    (to_bytes_le 4 L ++ d ++ tail) (by simp) (by decide)]
  rw [hpd]
  simp only []
  rw [hslice, hL]
  rw [if_neg (by omega)]

/-- Every unit encoding is non-empty. -/
lemma unit_bytes_pos (u : List Nat ⊕ Nat) : 0 < (unit_bytes u).length := by
  cases u with
  | inr b => simp [unit_bytes]
  | inl d =>
    show 0 < (bin_script [d]).length
    rw [bin_script_single]
    unfold push_data_bytes
    by_cases h0 : d.length = 0
    · rw [if_pos h0]; simp
    · rw [if_neg h0]
      by_cases h1 : d.length = 1 ∧ d.headD 0 ≤ 16
      · rw [if_pos h1]; simp
      · rw [if_neg h1]
        by_cases h2 : d.length ≤ 255
        · rw [if_pos h2]
          simp only [List.length_append]
          omega
        · rw [if_neg h2]
          by_cases h3 : d.length ≤ 65535
          · rw [if_pos h3]; simp
          · rw [if_neg h3]; simp

/-- One decode step at the start of a good unit consumes exactly the
unit and disassembles to the unit token. -/
lemma unit_decode (u : List Nat ⊕ Nat) (rest : List Nat) (hg : good_unit u) :
    ∃ op dat, get_opcode (unit_bytes u ++ rest) 0 = .ok (op, dat, (unit_bytes u).length) ∧
      disassemble_for_opcode_data op dat = unit_token u := by
  cases u with
  | inr b =>
    refine ⟨b, none, ?_, rfl⟩
    exact get_opcode_nonpush_eq ([b] ++ rest) 0 b rest (by simp) hg.1
  | inl d =>
    obtain ⟨hbytes, h32⟩ := hg
    by_cases h0 : d.length = 0
    · have hd := List.length_eq_zero.mp h0
      subst hd
      refine ⟨0, some [], ?_, by decide⟩
      have hub : unit_bytes (Sum.inl ([] : List Nat)) = [0] := by decide
      rw [hub]
      exact get_opcode_lit 0 [] rest rfl (by omega)
    · by_cases h1 : d.length = 1 ∧ d.headD 0 ≤ 16
      · obtain ⟨v, hd⟩ : ∃ v, d = [v] := by
          cases d with
          | nil => exact absurd rfl h0
          | cons a l =>
            cases l with
            | nil => exact ⟨a, rfl⟩
            | cons b m => simp at h1
        subst hd
        have hv : v ≤ 16 := by simpa using h1.2
        have hub : unit_bytes (Sum.inl [v]) = [op_int v] := by
          show bin_script [[v]] = _
          rw [bin_script_single]
          unfold push_data_bytes
          rw [if_neg h0, if_pos h1]
          simp
        by_cases hv0 : v = 0
        · subst hv0
          refine ⟨0, some [], ?_, by decide⟩
          rw [hub]
          exact get_opcode_lit 0 [] rest rfl (by omega)
        · refine ⟨op_int v, none, ?_, ?_⟩
          · rw [hub]
            exact get_opcode_nonpush_eq ([op_int v] ++ rest) 0 (op_int v) rest (by simp)
              (by simp only [op_int, if_neg hv0, OP_PUSHDATA4]; omega)
          · simp only [disassemble_for_opcode_data, unit_token]
            rw [if_neg h0, if_pos h1]
            simp
      · by_cases h2 : d.length ≤ 255
        · by_cases h75 : d.length > 75
          · -- OP_PUSHDATA1 form
            have hub : unit_bytes (Sum.inl d) = 0x4c :: d.length :: d := by
              show bin_script [d] = _
              rw [bin_script_single]
              unfold push_data_bytes
              rw [if_neg h0, if_neg h1, if_pos h2, if_pos h75,
                int_to_bytes_small d.length (by omega)]
              simp [OP_PUSHDATA1]
            refine ⟨0x4c, some d, ?_, ?_⟩
            · rw [hub]
              rw [get_opcode_pd1 d.length d rest rfl (by omega)]
              simp only [List.length_cons]
              rw [show 2 + d.length = d.length + 1 + 1 by omega]
            · simp only [disassemble_for_opcode_data, unit_token]
              rw [if_pos (show d.length > 0 by omega), if_neg h0, if_neg h1]
          · -- literal-length form
            have hub : unit_bytes (Sum.inl d) = d.length :: d := by
              show bin_script [d] = _
              rw [bin_script_single]
              unfold push_data_bytes
              rw [if_neg h0, if_neg h1, if_pos h2, if_neg h75,
                int_to_bytes_small d.length (by omega)]
              simp
            refine ⟨d.length, some d, ?_, ?_⟩
            · rw [hub]
              rw [get_opcode_lit d.length d rest rfl (by omega)]
              simp only [List.length_cons]
              rw [Nat.add_comm 1 d.length]
            · simp only [disassemble_for_opcode_data, unit_token]
              rw [if_pos (show d.length > 0 by omega), if_neg h0, if_neg h1]
        · by_cases h3 : d.length ≤ 65535
          · -- OP_PUSHDATA2 form
            have hub : unit_bytes (Sum.inl d) = 0x4d :: (to_bytes_le 2 d.length ++ d) := by
              show bin_script [d] = _
              rw [bin_script_single]
              unfold push_data_bytes
              rw [if_neg h0, if_neg h1, if_neg h2, if_pos h3]
              simp [OP_PUSHDATA2]
            refine ⟨0x4d, some d, ?_, ?_⟩
            · rw [hub]
              rw [get_opcode_pd2 d.length d rest rfl (by omega)]
              simp only [List.length_cons, List.length_append, length_to_bytes_le]
              rw [show 3 + d.length = 2 + d.length + 1 by omega]
            · simp only [disassemble_for_opcode_data, unit_token]
              rw [if_pos (show d.length > 0 by omega), if_neg h0, if_neg h1]
          · -- OP_PUSHDATA4 form
            have hub : unit_bytes (Sum.inl d) = 0x4e :: (to_bytes_le 4 d.length ++ d) := by
              show bin_script [d] = _
              rw [bin_script_single]
              unfold push_data_bytes
              rw [if_neg h0, if_neg h1, if_neg h2, if_neg h3]
              simp [OP_PUSHDATA4]
            refine ⟨0x4e, some d, ?_, ?_⟩
            · rw [hub]
              rw [get_opcode_pd4 d.length d rest rfl h32]
              simp only [List.length_cons, List.length_append, length_to_bytes_le]
              rw [show 5 + d.length = 4 + d.length + 1 by omega]
            · simp only [disassemble_for_opcode_data, unit_token]
              rw [if_pos (show d.length > 0 by omega), if_neg h0, if_neg h1]

/-- One iteration of the `opcode_list` loop. -/
lemma opcode_list_fuel_cons (fuel : Nat) (script : List Nat) (pc op : Nat)
    (dat : Option (List Nat)) (pc2 : Nat) (hpc : pc < script.length)
    (hdec : get_opcode script pc = .ok (op, dat, pc2)) :
    opcode_list_fuel (fuel + 1) script pc =
      (opcode_list_fuel fuel script pc2).map (disassemble_for_opcode_data op dat :: ·) := by
  simp only [opcode_list_fuel, hdec]
  rw [if_pos hpc]

/-- The `opcode_list` loop over a concatenation of good units returns
one token per unit, given enough fuel. -/
lemma opcode_list_fuel_units (us : List (List Nat ⊕ Nat)) (hg : ∀ u ∈ us, good_unit u) :
    ∀ fuel, ((us.map unit_bytes).flatten).length ≤ fuel →
      opcode_list_fuel fuel ((us.map unit_bytes).flatten) 0 = .ok (us.map unit_token) := by
  induction us with
  | nil =>
    intro fuel _
    cases fuel <;> simp [opcode_list_fuel]
  | cons u us ih =>
    intro fuel hf
    have hgu : good_unit u := hg u (by simp)
    have hpos := unit_bytes_pos u
    simp only [List.map_cons, List.flatten_cons, List.length_append] at hf ⊢
    cases fuel with
    | zero => omega
    | succ fuel =>
      obtain ⟨op, dat, hdec, htok⟩ := unit_decode u ((us.map unit_bytes).flatten) hgu
      rw [opcode_list_fuel_cons fuel _ 0 op dat (unit_bytes u).length
        (by simp only [List.length_append]; omega) hdec]
      rw [show (unit_bytes u).length = (unit_bytes u).length + 0 by omega,
        opcode_list_fuel_shift]
      rw [ih (fun x hx => hg x (by simp [hx])) fuel (by omega)]
      simp [Except.map, htok]

/-- Each disassembly token of a good unit compiles back to the unit
bytes. -/
lemma token_compiles (u : List Nat ⊕ Nat) (hg : good_unit u) :
    compile_token (unit_token u) = .ok (unit_bytes u) := by
  cases u with
  | inr b =>
    obtain ⟨hb, hsome, hname⟩ := hg
    obtain ⟨t, ht⟩ := Option.isSome_iff_exists.mp hsome
    have h1 : unit_token (Sum.inr b) = t := by simp [unit_token, ht]
    rw [show (INT_TO_OPCODE b).getD [] = t by rw [ht]; rfl] at hname
    rw [h1]
    show compile_token t = .ok [b]
    simp only [compile_token, hname]
  | inl d =>
    obtain ⟨hb, h32⟩ := hg
    by_cases h0 : d.length = 0
    · have hd := List.length_eq_zero.mp h0
      subst hd
      decide
    · by_cases h1 : d.length = 1 ∧ d.headD 0 ≤ 16
      · obtain ⟨v, hd⟩ : ∃ v, d = [v] := by
          cases d with
          | nil => exact absurd rfl h0
          | cons a l =>
            cases l with
            | nil => exact ⟨a, rfl⟩
            | cons b m => simp at h1
        subst hd
        have hv : v ≤ 16 := by simpa using h1.2
        have htok : unit_token (Sum.inl [v]) = (INT_TO_OPCODE (op_int v)).getD ("???").data := by
          simp only [unit_token]
          rw [if_neg h0, if_pos h1]
          simp
        have hub : unit_bytes (Sum.inl [v]) = [op_int v] := by
          show bin_script [[v]] = _
          rw [bin_script_single]
          unfold push_data_bytes
          rw [if_neg h0, if_pos h1]
          simp
        rw [htok, (smallint_facts v (by omega)).1, hub]
      · have hne : d ≠ [] := fun hcon => h0 (by rw [hcon]; rfl)
        have htok : unit_token (Sum.inl d) =
            (Char.ofNat 91 :: hexlify d) ++ [Char.ofNat 93] := by
          simp only [unit_token]
          rw [if_neg h0, if_neg h1]
        rw [htok, compile_token_bracket d hne hb]
        rfl

/-- Each disassembly token of a good unit is non-empty and
whitespace-free. -/
lemma token_facts (u : List Nat ⊕ Nat) (hg : good_unit u) :
    unit_token u ≠ [] ∧ ∀ c ∈ unit_token u, c.isWhitespace = false := by
  cases u with
  | inr b =>
    obtain ⟨hb, hsome, hname⟩ := hg
    obtain ⟨t, ht⟩ := Option.isSome_iff_exists.mp hsome
    have h1 : unit_token (Sum.inr b) = t := by simp [unit_token, ht]
    rw [h1]
    have hfacts := name_token_facts b (by rw [ht]; rfl)
    rw [show (INT_TO_OPCODE b).getD [] = t by rw [ht]; rfl] at hfacts
    exact hfacts
  | inl d =>
    obtain ⟨hb, _⟩ := hg
    by_cases h0 : d.length = 0
    · have hd := List.length_eq_zero.mp h0
      subst hd
      decide
    · by_cases h1 : d.length = 1 ∧ d.headD 0 ≤ 16
      · obtain ⟨v, hd⟩ : ∃ v, d = [v] := by
          cases d with
          | nil => exact absurd rfl h0
          | cons a l =>
            cases l with
            | nil => exact ⟨a, rfl⟩
            | cons b m => simp at h1
        subst hd
        have hv : v ≤ 16 := by simpa using h1.2
        have htok : unit_token (Sum.inl [v]) = (INT_TO_OPCODE (op_int v)).getD ("???").data := by
          simp only [unit_token]
          rw [if_neg h0, if_pos h1]
          simp
        rw [htok]
        exact ⟨(smallint_facts v (by omega)).2.1, (smallint_facts v (by omega)).2.2⟩
      · have htok : unit_token (Sum.inl d) =
            (Char.ofNat 91 :: hexlify d) ++ [Char.ofNat 93] := by
          simp only [unit_token]
          rw [if_neg h0, if_neg h1]
        rw [htok]
        refine ⟨by simp, ?_⟩
        intro c hc
        simp only [List.cons_append, List.mem_cons, List.mem_append,
          List.mem_singleton, List.not_mem_nil, or_false] at hc
        rcases hc with hc | hc | hc
        · rw [hc]; decide
        · exact (hexlify_chars d hb c hc).1
        · rw [hc]; decide

/-- Compiling the token list of good units yields the unit encodings. -/
lemma mapM_tokens (us : List (List Nat ⊕ Nat)) (hg : ∀ u ∈ us, good_unit u) :
    (us.map unit_token).mapM compile_token = .ok (us.map unit_bytes) := by
  induction us with
  | nil => rfl
  | cons u us ih =>
    simp only [List.map_cons, List.mapM_cons, token_compiles u (hg u (by simp)),
      ih (fun x hx => hg x (by simp [hx])), pyBind_ok]
    rfl

/-- `tools.compile` of the space-joined token list of good units
reproduces the concatenated unit encodings. -/
lemma pyCompile_join (us : List (List Nat ⊕ Nat)) (hg : ∀ u ∈ us, good_unit u) :
    pyCompile (join_spaces (us.map unit_token)) = .ok ((us.map unit_bytes).flatten) := by
  have hsplit : splitWS (join_spaces (us.map unit_token)) = us.map unit_token := by
    apply splitWS_join_spaces
    intro t ht
    obtain ⟨u, hu, rfl⟩ := List.mem_map.mp ht
    exact token_facts u (hg u hu)
  simp only [pyCompile, hsplit, mapM_tokens us hg, pyBind_ok]
  rfl

/-- **C8.**  For every script byte string built purely from minimal push
encodings (`bin_script` of one blob: `OP_0` / small-integer opcode /
literal length / `OP_PUSHDATA1/2/4`) and single opcodes known to the
mnemonic table, the disassembly succeeds and compiling it reproduces the
original bytes: `compile(disassemble(bytes)) == bytes`. -/
theorem claimC8_compile_disassemble_roundtrip (us : List (List Nat ⊕ Nat))
    (hg : ∀ u ∈ us, good_unit u) :
    ∃ text, disassemble ((us.map unit_bytes).flatten) = .ok text ∧
      pyCompile text = .ok ((us.map unit_bytes).flatten) := by
  refine ⟨join_spaces (us.map unit_token), ?_, pyCompile_join us hg⟩
  unfold disassemble opcode_list
  rw [opcode_list_fuel_units us hg _ le_rfl]
  rfl

/-- Closed instance of the C8 round trip: an empty push, a small-integer
push, a one-byte push above 16, a two-byte push, `OP_DUP` and
`OP_CHECKSIG`. -/
theorem claimC8_compile_disassemble_roundtrip_witness :
    (∀ u ∈ ([Sum.inl [], Sum.inl [5], Sum.inl [200], Sum.inl [0xaa, 0xbb],
        Sum.inr 0x76, Sum.inr 0xac] : List (List Nat ⊕ Nat)), good_unit u) ∧
    ∃ text,
      disassemble ((([Sum.inl [], Sum.inl [5], Sum.inl [200], Sum.inl [0xaa, 0xbb],
          Sum.inr 0x76, Sum.inr 0xac] : List (List Nat ⊕ Nat)).map unit_bytes).flatten) =
        .ok text ∧
      pyCompile text =
        .ok ((([Sum.inl [], Sum.inl [5], Sum.inl [200], Sum.inl [0xaa, 0xbb],
          Sum.inr 0x76, Sum.inr 0xac] : List (List Nat ⊕ Nat)).map unit_bytes).flatten) :=
  ⟨by intro u hu; fin_cases hu <;> decide,
    claimC8_compile_disassemble_roundtrip _ (by intro u hu; fin_cases hu <;> decide)⟩

end Pycoin
